import Mathlib

/-!
Verification of the Seasonal Hybrid ESD anomaly-detection core (`anoms.py`).

The development shallowly embeds the algorithmic core of the library:
series values are rationals; a possibly-missing value (Python `NaN`) is
modeled as `Option ℚ` with `none` standing for NaN; fallible Python
operations (out-of-range list indexing, unbound local variables, bad
`range` steps) return `Except String`.  The four external numeric
collaborators — the STL decomposition, the breakout detector, the
Student-t quantile function `t.ppf` and `np.sqrt` — are opaque oracles
supplied as parameters, exactly as the design treats them (narrow
contracts, internals out of scope).

Python sets are modeled as duplicate-free lists built by the same
element-by-element `add` loop the source uses; no result ever depends
on the order of such a list (the only observations are membership
filters and the final ascending sort).  `sorted` is modeled by
insertion sort, which produces the unique ascending permutation.
-/

namespace AnomsPy

/-- A Python float as fed to `detect_anoms`: `none` models NaN. -/
abbrev PyFloat := Option ℚ

/-- `np.isnan` on a `PyFloat`. -/
def isnan (v : PyFloat) : Bool := v.isNone

/-- Python `abs` on a rational. -/
def pyabs (q : ℚ) : ℚ := if q < 0 then -q else q

/-- Normalize a Python index against a list of length `n`: negative
indices count from the end; out-of-range gives `none` (IndexError). -/
def pyNorm (n : ℕ) (i : ℤ) : Option ℕ :=
  let j := if i < 0 then i + n else i
  if 0 ≤ j ∧ j < n then some j.toNat else none

/-- Python `l[i]` on a list of rationals (`none` = IndexError). -/
def pyGet (l : List ℚ) (i : ℤ) : Option ℚ :=
  (pyNorm l.length i).map fun j => l.getD j 0

/-- Python `l[i]` on the expected-value table. -/
def pyGetOpt (l : List (Option ℚ)) (i : ℤ) : Except String (Option ℚ) :=
  match pyNorm l.length i with
  | some j => .ok (l.getD j none)
  | none => .error "IndexError: list index out of range"

/-- Python `l[i] = v` on the expected-value table. -/
def pySetOpt (l : List (Option ℚ)) (i : ℤ) (v : ℚ) : Except String (List (Option ℚ)) :=
  match pyNorm l.length i with
  | some j => .ok (l.set j (some v))
  | none => .error "IndexError: list assignment index out of range"

/-- Clamp one bound of a Python slice `l[a:b]` for a list of length `n`. -/
def pySliceBound (n : ℕ) (i : ℤ) : ℕ :=
  if i < 0 then (i + n).toNat else min i.toNat n

/-- Python slice `l[a:b]` (step 1), with the usual clamping and
negative-index wrapping. -/
def pySlice {α : Type} (l : List α) (a b : ℤ) : List α :=
  let s := pySliceBound l.length a
  let e := pySliceBound l.length b
  (l.drop s).take (e - s)

/-- Python `range(0, stop, step)` for a positive `step`. -/
def pyRange (stop step : ℕ) : List ℕ :=
  (List.range ((stop + step - 1) / step)).map (· * step)

/-- `s.add v` on a Python set modeled as a duplicate-free list. -/
def pySetAdd (s : List ℤ) (v : ℤ) : List ℤ :=
  if v ∈ s then s else s ++ [v]

/-- `a.union b` on Python sets modeled as duplicate-free lists. -/
def pySetUnion (a b : List ℤ) : List ℤ := b.foldl pySetAdd a

/-- Python `max` over a list (callers only apply it to nonempty chunks). -/
def listMax : List ℚ → ℚ
  | [] => 0
  | h :: t => t.foldl max h

/-- `np.median` / `pandas.Series.median`: middle of the ascending
rearrangement, averaging the two middle values for even length. -/
def median (l : List ℚ) : ℚ :=
  let s := List.insertionSort (· ≤ ·) l
  let n := l.length
  if n = 0 then 0
  else if n % 2 = 1 then s.getD (n / 2) 0
  else (s.getD (n / 2 - 1) 0 + s.getD (n / 2) 0) / 2

/-- `np.percentile` with the default linear interpolation: virtual rank
`q/100 * (n-1)`, interpolating between the two neighbouring order
statistics. -/
def percentile (l : List ℚ) (q : ℚ) : ℚ :=
  let s := List.insertionSort (· ≤ ·) l
  let n := l.length
  if n = 0 then 0
  else
    let h := q * ((n : ℚ) - 1) / 100
    let i := (Rat.floor h).toNat
    let g := h - (Rat.floor h : ℚ)
    if i + 1 < n then s.getD i 0 + g * (s.getD (i + 1) 0 - s.getD i 0)
    else s.getD (n - 1) 0

/-- The magic constant copied from the `mad` function of R. -/
def MAD_CONSTANT : ℚ := 14826 / 10000

/-- The four external collaborators, treated as opaque deterministic
oracles per their contracts: `stl x period` returns the seasonal and
trend components (each of the length of `x`); `breakout` returns the
ascending boundary list of `detect_breakout` with its configuration
already applied; `tppf p df` is the Student-t quantile `t.ppf`;
`sqrt` is `np.sqrt`. -/
structure Oracles where
  stl : List ℚ → ℕ → List ℚ × List ℚ
  breakout : List ℚ → List ℕ
  tppf : ℚ → ℤ → ℚ
  sqrt : ℚ → ℚ

/-- `pandas.Series.idxmax` over a working set of (label, value) pairs:
the label and value of the first occurrence of the maximal value. -/
def idxmax : List (ℕ × ℚ) → Option (ℕ × ℚ)
  | [] => none
  | p :: t => some (t.foldl (fun best q => if best.2 < q.2 then q else best) p)

/-- The direction-dependent deviation score of `_esd`; `none` models the
unbound local `ares` for an unrecognized direction. -/
def scoreFn (direction : String) : Option (ℚ → ℚ → ℚ → ℚ) :=
  if direction = "both" then some fun value med mad => pyabs (value - med) / mad
  else if direction = "pos" then some fun value med mad => (value - med) / mad
  else if direction = "neg" then some fun value med mad => (med - value) / mad
  else none

/-- The significance level of one `_esd` iteration, with `ni1` standing
for `n - i + 1`: two-sided directions halve `alpha` per tail. -/
def esdPValue (direction : String) (alpha : ℚ) (ni1 : ℚ) : ℚ :=
  if direction = "both" then 1 - alpha / (2 * ni1) else 1 - alpha / ni1

/-- One pass structure of the `_esd` loop: `n` is the original residual
count, `i` the 1-based iteration counter, `ws` the surviving working
set keyed by original labels, `acc` the outliers recorded so far in
removal order.  Each iteration recomputes median and MAD over the
working set, stops on zero MAD, scores every point, takes the stable
argmax, and removes it exactly when its score exceeds the critical
value `lam` derived from the Student-t quantile. -/
def esdGo (O : Oracles) (n : ℕ) (alpha : ℚ) (direction : String) :
    ℕ → ℕ → List (ℕ × ℚ) → List ℕ → Except String (List ℕ)
  | 0, _, _, acc => .ok acc
  | fuel + 1, i, ws, acc =>
    let vals := ws.map Prod.snd
    let med := median vals
    let mad := median (vals.map fun value => pyabs (value - med)) * MAD_CONSTANT
    if mad = 0 then .ok acc
    else
      match scoreFn direction with
      | none => .error "NameError: ares is not defined"
      | some f =>
        match idxmax (ws.map fun p => (p.1, f p.2 med mad)) with
        | none => .ok acc
        | some (ridx, r) =>
          let p : ℚ := esdPValue direction alpha ((n : ℚ) - i + 1)
          let crit := O.tppf p ((n : ℤ) - i - 1)
          let lam := ((n : ℚ) - i) * crit /
            O.sqrt (((n : ℚ) - i - 1 + crit ^ 2) * ((n : ℚ) - i + 1))
          if r > lam then
            esdGo O n alpha direction fuel (i + 1)
              (ws.filter fun q => q.1 ≠ ridx) (acc ++ [ridx])
          else .ok acc

/-- `_esd`: the ESD test using median and MAD in the test statistic,
over residuals `x`, running at most `max_outlier` iterations. -/
def esd (O : Oracles) (x : List ℚ) (max_outlier : ℕ) (alpha : ℚ)
    (direction : String) : Except String (List ℕ) :=
  esdGo O x.length alpha direction max_outlier 1 x.enum []

/-- `_get_trends_by_median`: the scalar median broadcast to the window. -/
def get_trends_by_median (x : List ℚ) : List ℚ :=
  List.replicate x.length (median x)

/-- `_get_trends_by_breakout_detection`: per-segment medians between the
breakout boundaries, with the window length appended as the final
boundary when absent. -/
def get_trends_by_breakout_detection (O : Oracles) (x : List ℚ) : List ℚ :=
  let ret_list := O.breakout x
  let ret_list := if x.length ∈ ret_list then ret_list else ret_list ++ [x.length]
  (ret_list.foldl
    (fun (st : ℕ × List ℚ) loc =>
      (loc, st.2 ++ List.replicate (loc - st.1) (median (pySlice x st.1 loc))))
    (0, [])).2

/-- The expected-value population loop of `_detect_anomaly_for_one_window`
(lines writing `e_values[window_start + i]`): indices `0 ≤ i < m` of the
window in increasing order, writing `floor(seasonal + trend)` only into
entries still unpopulated. -/
def updateEValues (seasons trends : List ℚ) (window_start : ℤ) :
    ℕ → List (Option ℚ) → Except String (List (Option ℚ))
  | 0, ev => .ok ev
  | m + 1, ev =>
    match updateEValues seasons trends window_start m ev with
    | .error e => .error e
    | .ok ev' =>
      match pyGetOpt ev' (window_start + m) with
      | .error e => .error e
      | .ok none =>
          pySetOpt ev' (window_start + m)
            ((Rat.floor (seasons.getD m 0 + trends.getD m 0) : ℤ) : ℚ)
      | .ok (some _) => .ok ev'

/-- The truthiness-guarded expected-value population of
`_detect_anomaly_for_one_window`: a `None` table or an empty table
(falsy in Python) is left untouched, otherwise the table is populated
from the STL seasonal and trend components. -/
def e_values_step (O : Oracles) (x : List ℚ) (period : ℕ)
    (e_values : Option (List (Option ℚ))) (window_start : ℤ) :
    Except String (Option (List (Option ℚ))) :=
  match e_values with
  | some ev =>
    if ev.length = 0 then .ok (some ev)
    else
      match updateEValues (O.stl x period).1 (O.stl x period).2 window_start
          x.length ev with
      | .ok ev' => .ok (some ev')
      | .error e => .error e
  | none => .ok none

/-- `_detect_anomaly_for_one_window`: STL decomposition, optional
expected-value population, residual construction against the median (or
breakout) baseline, then the ESD test; local outlier indices are shifted
by `window_start` into the global index space. -/
def detect_anomaly_for_one_window (O : Oracles) (x : List ℚ) (period : ℕ)
    (max_anoms alpha : ℚ) (direction : String)
    (e_values : Option (List (Option ℚ))) (window_start : ℤ)
    (breakout_kwargs : Bool) :
    Except String (List ℤ × Option (List (Option ℚ))) :=
  let seasons := (O.stl x period).1
  match e_values_step O x period e_values window_start with
  | .error e => .error e
  | .ok e_values' =>
    let trends :=
      if breakout_kwargs then get_trends_by_breakout_detection O x
      else get_trends_by_median x
    let residuals := (List.range x.length).map fun i =>
      x.getD i 0 - seasons.getD i 0 - trends.getD i 0
    let max_anom_num := max 1 (Rat.floor ((x.length : ℚ) * max_anoms)).toNat
    match esd O residuals max_anom_num alpha direction with
    | .error e => .error e
    | .ok anom_index =>
      .ok (anom_index.foldl (fun ret (a : ℕ) => pySetAdd ret (window_start + (a : ℤ)))
             [],
           e_values')

/-- The scalar threshold of `_post_processing_threshold`: median or
percentile of the per-period chunk maxima of the window. -/
def threshold_value (x : List ℚ) (period : ℕ) (threshold : String) : ℚ :=
  let period_maxs := (pyRange x.length period).map fun i =>
    listMax (pySlice x (i : ℤ) (min x.length (i + period) : ℤ))
  if threshold = "med_max" then median period_maxs
  else if threshold = "p95" then percentile period_maxs 95
  else if threshold = "p99" then percentile period_maxs 99
  else 0

/-- `_post_processing_threshold`: keep only the candidate indices whose
value `x[index]` is at least the threshold.  Note that the source
passes the window slice as `x` while `ret` holds global indices. -/
def post_processing_threshold (x : List ℚ) (period : ℕ) (ret : List ℤ)
    (threshold : String) : Except String (List ℤ) :=
  if period = 0 then .error "ValueError: range arg 3 must not be zero"
  else
    let thresh := threshold_value x period threshold
    if ret.all fun index => (pyNorm x.length index).isSome then
      .ok (ret.filter fun index => thresh ≤ (pyGet x index).getD 0)
    else .error "IndexError: list index out of range"

/-- `_post_processing_only_last`: keep only indices in the final
`only_last` samples. -/
def post_processing_only_last (n : ℕ) (ret : List ℤ) (only_last : ℤ) : List ℤ :=
  ret.filter fun value => (n : ℤ) - only_last ≤ value

/-- The window extent used by the orchestrator for the window starting
at `ws`: `window_end = min n (ws + ltp)`, and the start shifted left when
the tail window is shorter than `ltp`. -/
def windowBounds (n ltp ws : ℕ) : ℤ × ℕ :=
  let window_end := min n (ws + ltp)
  (if (window_end : ℤ) - ws < (ltp : ℤ) then (window_end : ℤ) - ltp else (ws : ℤ),
   window_end)

/-- The body of the window loop of `detect_anoms`: slice the window,
check its length, run the window processor, optionally run the
threshold filter on this window, and union into the accumulated set. -/
def processWindow (O : Oracles) (xq : List ℚ) (n period : ℕ)
    (max_anoms alpha : ℚ) (direction : String) (ltp : ℕ)
    (threshold : Option String) (breakout_kwargs : Bool)
    (st : List ℤ × Option (List (Option ℚ))) (ws : ℕ) :
    Except String (List ℤ × Option (List (Option ℚ))) :=
  let wb := windowBounds n ltp ws
  let window_x := pySlice xq wb.1 (wb.2 : ℤ)
  if window_x.length < period * 2 then
    .error "Anom detection needs at least 2 periods worth of data."
  else
    match detect_anomaly_for_one_window O window_x period max_anoms alpha direction
        st.2 wb.1 breakout_kwargs with
    | .error e => .error e
    | .ok (window_ret, ev') =>
      match threshold with
      | some th =>
        if th = "" then .ok (pySetUnion st.1 window_ret, ev')
        else
          match post_processing_threshold window_x period window_ret th with
          | .error e => .error e
          | .ok wr2 => .ok (pySetUnion st.1 wr2, ev')
      | none => .ok (pySetUnion st.1 window_ret, ev')

/-- The `if only_last:` line of `detect_anoms`: a truthy (non-`None`,
nonzero) `only_last` applies the recency filter once, globally. -/
def apply_only_last (n : ℕ) (only_last : Option ℤ) (ret : List ℤ) : List ℤ :=
  match only_last with
  | some k => if k = 0 then ret else post_processing_only_last n ret k
  | none => ret

/-- The return statement of `detect_anoms`: when `e_value` is set, pair
the sorted indices with the expected-value table looked up at each
surviving index, else return the sorted indices alone. -/
def build_result (sorted : List ℤ) (e_value : Bool)
    (e_values : Option (List (Option ℚ))) :
    Except String (List ℤ × Option (List (Option ℚ))) :=
  if e_value then
    match e_values with
    | some evt =>
      match sorted.mapM (pyGetOpt evt) with
      | .error e => .error e
      | .ok evs => .ok (sorted, some evs)
    | none => .ok (sorted, none)
  else .ok (sorted, none)

/-- `detect_anoms`: validation, windowing with back-alignment of the
final window, per-window detection and threshold filtering, the global
recency filter, the ascending sort, and the optional expected-value
lookup. -/
def detect_anoms (O : Oracles) (x : List PyFloat) (period : ℕ)
    (max_anoms alpha : ℚ) (direction : String) (longterm_period : Option ℕ)
    (only_last : Option ℤ) (threshold : Option String) (e_value : Bool)
    (breakout_kwargs : Bool) :
    Except String (List ℤ × Option (List (Option ℚ))) :=
  if max_anoms > 49 / 100 ∨ max_anoms ≤ 0 then
    .error "max_anoms must be >0 and <= 0.49"
  else if alpha ≤ 0 then .error "alpha must greater than 0."
  else
    let ltp := longterm_period.getD x.length
    if x.any isnan then .error "data contains NaN value."
    else if ltp = 0 then .error "ValueError: range arg 3 must not be zero"
    else
      let xq := x.map fun v => v.getD 0
      let n := x.length
      let start : List ℤ × Option (List (Option ℚ)) :=
        ([], if e_value then some (List.replicate n (none : Option ℚ)) else none)
      match (pyRange n ltp).foldlM
          (processWindow O xq n period max_anoms alpha direction ltp threshold
            breakout_kwargs) start with
      | .error e => .error e
      | .ok (ret0, e_values) =>
        build_result
          (List.insertionSort (· ≤ ·) (apply_only_last n only_last ret0))
          e_value e_values

/-- Decidable equality of `Except` results, to evaluate runs of the
embedded program on concrete inputs. -/
instance {ε α : Type} [DecidableEq ε] [DecidableEq α] : DecidableEq (Except ε α) := fun a b =>
  match a, b with
  | .ok x, .ok y =>
    if h : x = y then .isTrue (by rw [h])
    else .isFalse (by intro hc; cases hc; exact h rfl)
  | .error x, .error y =>
    if h : x = y then .isTrue (by rw [h])
    else .isFalse (by intro hc; cases hc; exact h rfl)
  | .ok _, .error _ => .isFalse (by intro hc; cases hc)
  | .error _, .ok _ => .isFalse (by intro hc; cases hc)

section SetModelLemmas

theorem mem_pySetAdd {s : List ℤ} {w v : ℤ} :
    v ∈ pySetAdd s w ↔ v ∈ s ∨ v = w := by
  unfold pySetAdd
  split
  · rename_i hw
    constructor
    · exact fun h => Or.inl h
    · rintro (h | rfl) <;> [exact h; exact hw]
  · simp

theorem nodup_pySetAdd {s : List ℤ} {w : ℤ} (h : s.Nodup) :
    (pySetAdd s w).Nodup := by
  unfold pySetAdd
  split
  · exact h
  · rename_i hw
    simpa [List.nodup_append, h] using hw

theorem mem_pySetUnion {a b : List ℤ} {v : ℤ} :
    v ∈ pySetUnion a b ↔ v ∈ a ∨ v ∈ b := by
  unfold pySetUnion
  induction b generalizing a with
  | nil => simp
  | cons h t ih =>
    simp only [List.foldl_cons, ih, mem_pySetAdd, List.mem_cons]
    tauto

theorem nodup_pySetUnion {a b : List ℤ} (h : a.Nodup) :
    (pySetUnion a b).Nodup := by
  unfold pySetUnion
  induction b generalizing a with
  | nil => exact h
  | cons c t ih => exact ih (nodup_pySetAdd h)

theorem mem_foldl_pySetAdd {f : ℕ → ℤ} :
    ∀ (l : List ℕ) (s : List ℤ) (v : ℤ),
      v ∈ l.foldl (fun r a => pySetAdd r (f a)) s ↔ v ∈ s ∨ ∃ a ∈ l, f a = v := by
  intro l
  induction l with
  | nil => simp
  | cons h t ih =>
    intro s v
    simp only [List.foldl_cons, ih, mem_pySetAdd, List.mem_cons]
    constructor
    · rintro ((hs | hv) | ⟨a, ha, rfl⟩)
      · exact Or.inl hs
      · exact Or.inr ⟨h, Or.inl rfl, hv.symm⟩
      · exact Or.inr ⟨a, Or.inr ha, rfl⟩
    · rintro (hs | ⟨a, (rfl | ha), rfl⟩)
      · exact Or.inl (Or.inl hs)
      · exact Or.inl (Or.inr rfl)
      · exact Or.inr ⟨a, ha, rfl⟩

theorem nodup_foldl_pySetAdd {f : ℕ → ℤ} :
    ∀ (l : List ℕ) (s : List ℤ), s.Nodup →
      (l.foldl (fun r a => pySetAdd r (f a)) s).Nodup := by
  intro l
  induction l with
  | nil => exact fun s h => h
  | cons h t ih => exact fun s hs => ih _ (nodup_pySetAdd hs)

end SetModelLemmas

section PyIndexLemmas

theorem pyNorm_eq_some {n : ℕ} {i : ℤ} (h0 : 0 ≤ i) (hn : i < n) :
    pyNorm n i = some i.toNat := by
  unfold pyNorm
  simp only [if_neg (not_lt.mpr h0)]
  rw [if_pos ⟨h0, hn⟩]

theorem pySlice_length {α : Type} {l : List α} {a b : ℤ}
    (h0 : 0 ≤ a) (hab : a ≤ b) (hb : b ≤ l.length) :
    (pySlice l a b).length = (b - a).toNat := by
  unfold pySlice pySliceBound
  have hb0 : 0 ≤ b := le_trans h0 hab
  simp only [if_neg (not_lt.mpr h0), if_neg (not_lt.mpr hb0)]
  have ha' : a.toNat ≤ l.length := by omega
  have hb' : b.toNat ≤ l.length := by omega
  rw [min_eq_left ha', min_eq_left hb']
  simp only [List.length_take, List.length_drop]
  omega

theorem pySlice_full {α : Type} (l : List α) :
    pySlice l 0 (l.length : ℤ) = l := by
  unfold pySlice pySliceBound
  have h : ¬ ((l.length : ℤ) < 0) := by omega
  simp [h]

theorem pySlice_map {α β : Type} (f : α → β) (l : List α) (a b : ℤ) :
    pySlice (l.map f) a b = (pySlice l a b).map f := by
  unfold pySlice pySliceBound
  simp [List.map_take, List.map_drop]

end PyIndexLemmas

section EsdLemmas

theorem idxmax_cons_cons (p a : ℕ × ℚ) (t : List (ℕ × ℚ)) :
    idxmax (p :: a :: t) = idxmax ((if p.2 < a.2 then a else p) :: t) := by
  simp [idxmax, List.foldl_cons]

theorem idxmax_spec :
    ∀ (t : List (ℕ × ℚ)) (h p : ℕ × ℚ), idxmax (h :: t) = some p →
      (∀ q ∈ h :: t, q.2 ≤ p.2) ∧
      ∃ l1 l2, h :: t = l1 ++ p :: l2 ∧ ∀ q ∈ l1, q.2 < p.2 := by
  intro t
  induction t with
  | nil =>
    intro h p hidx
    simp only [idxmax, List.foldl_nil, Option.some_inj] at hidx
    subst hidx
    refine ⟨?_, [], [], rfl, by simp⟩
    intro q hq
    simp only [List.mem_singleton] at hq
    subst hq
    exact le_refl _
  | cons a t ih =>
    intro h p hidx
    rw [idxmax_cons_cons] at hidx
    by_cases hpa : h.2 < a.2
    · rw [if_pos hpa] at hidx
      obtain ⟨hmax, l1, l2, hdec, hstrict⟩ := ih a p hidx
      have hap : a.2 ≤ p.2 := hmax a (List.mem_cons_self a t)
      constructor
      · intro q hq
        rcases List.mem_cons.1 hq with rfl | hq'
        · exact le_of_lt (lt_of_lt_of_le hpa hap)
        · exact hmax q hq'
      · refine ⟨h :: l1, l2, ?_, ?_⟩
        · rw [List.cons_append, ← hdec]
        · intro q hq
          rcases List.mem_cons.1 hq with rfl | hq'
          · exact lt_of_lt_of_le hpa hap
          · exact hstrict q hq'
    · rw [if_neg hpa] at hidx
      obtain ⟨hmax, l1, l2, hdec, hstrict⟩ := ih h p hidx
      have hhp : h.2 ≤ p.2 := hmax h (List.mem_cons_self h t)
      have hah : a.2 ≤ h.2 := not_lt.mp hpa
      constructor
      · intro q hq
        rcases List.mem_cons.1 hq with rfl | hq'
        · exact hhp
        rcases List.mem_cons.1 hq' with rfl | hq''
        · exact le_trans hah hhp
        · exact hmax q (List.mem_cons_of_mem h hq'')
      · cases l1 with
        | nil =>
          simp only [List.nil_append, List.cons.injEq] at hdec
          obtain ⟨rfl, rfl⟩ := hdec
          exact ⟨[], a :: t, rfl, by simp⟩
        | cons b l1' =>
          simp only [List.cons_append, List.cons.injEq] at hdec
          obtain ⟨rfl, ht⟩ := hdec
          have hhlt : h.2 < p.2 := hstrict h (List.mem_cons_self h l1')
          refine ⟨h :: a :: l1', l2, ?_, ?_⟩
          · rw [ht]; simp
          · intro q hq
            rcases List.mem_cons.1 hq with rfl | hq'
            · exact hhlt
            rcases List.mem_cons.1 hq' with rfl | hq''
            · exact lt_of_le_of_lt hah hhlt
            · exact hstrict q (List.mem_cons_of_mem h hq'')

theorem idxmax_mem {ws : List (ℕ × ℚ)} {p : ℕ × ℚ} (h : idxmax ws = some p) :
    p ∈ ws := by
  cases ws with
  | nil => simp [idxmax] at h
  | cons a t =>
    obtain ⟨_, l1, l2, hdec, _⟩ := idxmax_spec t a p h
    rw [hdec]
    exact List.mem_append.2 (Or.inr (List.mem_cons_self p l2))

theorem esdGo_ok_spec (O : Oracles) (n : ℕ) (al : ℚ) (dir : String) :
    ∀ (fuel i : ℕ) (ws : List (ℕ × ℚ)) (acc l : List ℕ),
      esdGo O n al dir fuel i ws acc = .ok l →
      acc.Nodup → (ws.map Prod.fst).Nodup → (∀ j ∈ acc, j ∉ ws.map Prod.fst) →
      l.Nodup ∧ l.length ≤ acc.length + fuel ∧
        ∀ j ∈ l, j ∈ acc ∨ j ∈ ws.map Prod.fst := by
  intro fuel
  induction fuel with
  | zero =>
    intro i ws acc l h hacc _ _
    simp only [esdGo, Except.ok.injEq] at h
    subst h
    exact ⟨hacc, le_refl _, fun j hj => Or.inl hj⟩
  | succ f ih =>
    intro i ws acc l h hacc hws hdisj
    simp only [esdGo] at h
    set med := median (ws.map Prod.snd) with hmed
    set mad := median ((ws.map Prod.snd).map fun value => pyabs (value - med)) *
      MAD_CONSTANT with hmad
    by_cases hz : mad = 0
    · rw [if_pos hz] at h
      obtain rfl : acc = l := Except.ok.inj h
      exact ⟨hacc, by omega, fun j hj => Or.inl hj⟩
    · rw [if_neg hz] at h
      cases hsf : scoreFn dir with
      | none => simp only [hsf] at h; cases h
      | some g =>
        simp only [hsf] at h
        cases hidx : idxmax (ws.map fun p => (p.1, g p.2 med mad)) with
        | none =>
          simp only [hidx] at h
          obtain rfl : acc = l := Except.ok.inj h
          exact ⟨hacc, by omega, fun j hj => Or.inl hj⟩
        | some pr =>
          obtain ⟨ridx, r⟩ := pr
          simp only [hidx] at h
          split at h
          · -- the extreme point is removed; recurse on the smaller set
            have hmem : ridx ∈ ws.map Prod.fst := by
              have hp := idxmax_mem hidx
              rcases List.mem_map.1 hp with ⟨q, hq, hq2⟩
              exact List.mem_map.2 ⟨q, hq, by
                simpa using congrArg Prod.fst hq2⟩
            have hnacc : ridx ∉ acc := fun hc => hdisj ridx hc hmem
            have hsub : ((ws.filter fun q => q.1 ≠ ridx).map Prod.fst).Sublist
                (ws.map Prod.fst) := (List.filter_sublist ws).map Prod.fst
            have h1 : (acc ++ [ridx]).Nodup := by
              simp [List.nodup_append, hacc, hnacc]
            have h2 : ((ws.filter fun q => q.1 ≠ ridx).map Prod.fst).Nodup :=
              hws.sublist hsub
            have h3 : ∀ j ∈ acc ++ [ridx],
                j ∉ (ws.filter fun q => q.1 ≠ ridx).map Prod.fst := by
              intro j hj hc
              rcases List.mem_map.1 hc with ⟨q, hq, rfl⟩
              have hq' := List.of_mem_filter hq
              rcases List.mem_append.1 hj with hja | hjr
              · exact hdisj _ hja (List.mem_map.2 ⟨q, List.mem_of_mem_filter hq, rfl⟩)
              · simp only [List.mem_singleton] at hjr
                subst hjr
                simp at hq'
            obtain ⟨g1, g2, g3⟩ := ih (i + 1) _ _ l h h1 h2 h3
            refine ⟨g1, ?_, ?_⟩
            · simp only [List.length_append, List.length_singleton] at g2
              omega
            · intro j hj
              rcases g3 j hj with hj' | hj'
              · rcases List.mem_append.1 hj' with hja | hjr
                · exact Or.inl hja
                · simp only [List.mem_singleton] at hjr
                  subst hjr
                  exact Or.inr hmem
              · rcases List.mem_map.1 hj' with ⟨q, hq, rfl⟩
                exact Or.inr (List.mem_map.2 ⟨q, List.mem_of_mem_filter hq, rfl⟩)
          · obtain rfl : acc = l := Except.ok.inj h
            exact ⟨hacc, by omega, fun j hj => Or.inl hj⟩

theorem esdGo_total (O : Oracles) (n : ℕ) (al : ℚ) (dir : String)
    (hdir : dir = "both" ∨ dir = "pos" ∨ dir = "neg") :
    ∀ (fuel i : ℕ) (ws : List (ℕ × ℚ)) (acc : List ℕ),
      ∃ l, esdGo O n al dir fuel i ws acc = .ok l := by
  have hsf : ∃ g, scoreFn dir = some g := by
    rcases hdir with rfl | rfl | rfl <;> exact ⟨_, rfl⟩
  intro fuel
  induction fuel with
  | zero => intro i ws acc; exact ⟨acc, by simp [esdGo]⟩
  | succ f ih =>
    intro i ws acc
    simp only [esdGo]
    set med := median (ws.map Prod.snd) with hmed
    set mad := median ((ws.map Prod.snd).map fun value => pyabs (value - med)) *
      MAD_CONSTANT with hmad
    by_cases hz : mad = 0
    · rw [if_pos hz]; exact ⟨acc, rfl⟩
    · rw [if_neg hz]
      obtain ⟨g, hg⟩ := hsf
      simp only [hg]
      cases hidx : idxmax (ws.map fun p => (p.1, g p.2 med mad)) with
      | none => exact ⟨acc, by simp [hidx]⟩
      | some pr =>
        obtain ⟨ridx, r⟩ := pr
        simp only [hidx]
        set lam := ((n : ℚ) - i) *
          O.tppf (esdPValue dir al ((n : ℚ) - i + 1)) ((n : ℤ) - i - 1) /
          O.sqrt (((n : ℚ) - i - 1 +
            O.tppf (esdPValue dir al ((n : ℚ) - i + 1)) ((n : ℤ) - i - 1) ^ 2) *
            ((n : ℚ) - i + 1)) with hlam
        by_cases hrl : r > lam
        · rw [if_pos hrl]; exact ih _ _ _
        · rw [if_neg hrl]; exact ⟨acc, rfl⟩

theorem esd_ok_spec (O : Oracles) (x : List ℚ) (mo : ℕ) (al : ℚ) (dir : String)
    (l : List ℕ) (h : esd O x mo al dir = .ok l) :
    l.Nodup ∧ l.length ≤ mo ∧ ∀ j ∈ l, j < x.length := by
  unfold esd at h
  have henum : (x.enum.map Prod.fst) = List.range x.length := List.enum_map_fst x
  obtain ⟨g1, g2, g3⟩ := esdGo_ok_spec O x.length al dir mo 1 x.enum [] l h
    List.nodup_nil (by rw [henum]; exact List.nodup_range x.length)
    (by simp)
  refine ⟨g1, by simpa using g2, ?_⟩
  intro j hj
  rcases g3 j hj with hj' | hj'
  · simp at hj'
  · rw [henum] at hj'
    exact List.mem_range.1 hj'

end EsdLemmas

section FoldInvariant

theorem foldlM_except_inv {σ α : Type} (f : σ → α → Except String σ) (P : σ → Prop) :
    ∀ (l : List α) (s : σ), P s →
      (∀ a ∈ l, ∀ t t', P t → f t a = .ok t' → P t') →
      ∀ out, l.foldlM f s = .ok out → P out := by
  intro l
  induction l with
  | nil =>
    intro s hs _ out h
    simp only [List.foldlM_nil] at h
    have : s = out := by
      have h' : (Except.ok s : Except String σ) = .ok out := h
      exact (Except.ok.inj h')
    exact this ▸ hs
  | cons a t ih =>
    intro s hs hstep out h
    rw [List.foldlM_cons] at h
    cases hfa : f s a with
    | error e =>
      rw [hfa] at h
      exact absurd h (by simp [Bind.bind, Except.bind])
    | ok s' =>
      rw [hfa] at h
      have h' : t.foldlM f s' = .ok out := by
        simpa [Bind.bind, Except.bind] using h
      exact ih s' (hstep a (List.mem_cons_self a t) s s' hs hfa)
        (fun b hb => hstep b (List.mem_cons_of_mem a hb)) out h'

end FoldInvariant

section WindowingLemmas

theorem mem_pyRange_lt {n s : ℕ} (hs : 0 < s) {ws : ℕ} (hws : ws ∈ pyRange n s) :
    ws < n := by
  unfold pyRange at hws
  rcases List.mem_map.1 hws with ⟨k, hk, rfl⟩
  have h1 : k + 1 ≤ (n + s - 1) / s := List.mem_range.1 hk
  have h2 : (k + 1) * s ≤ (n + s - 1) / s * s :=
    Nat.mul_le_mul_right s h1
  have h3 : (n + s - 1) / s * s ≤ n + s - 1 := Nat.div_mul_le_self _ _
  have h4 : (k + 1) * s = k * s + s := Nat.succ_mul k s
  omega

theorem pyRange_head {n s : ℕ} (hs : 0 < s) (hn : 0 < n) :
    ∃ t, pyRange n s = 0 :: t := by
  unfold pyRange
  have h1 : 1 ≤ (n + s - 1) / s := by
    rw [Nat.le_div_iff_mul_le hs]
    omega
  obtain ⟨m, hm⟩ := Nat.exists_eq_add_of_le h1
  rw [hm, Nat.add_comm 1 m, List.range_succ_eq_map]
  refine ⟨(List.map Nat.succ (List.range m)).map (fun x => x * s), ?_⟩
  simp

theorem windowBounds_spec {n L ws : ℕ} (hL : 0 < L) (hLn : L ≤ n) (hws : ws < n) :
    0 ≤ (windowBounds n L ws).1 ∧
    (windowBounds n L ws).1 ≤ ((windowBounds n L ws).2 : ℤ) ∧
    (windowBounds n L ws).2 ≤ n := by
  unfold windowBounds
  dsimp only
  split <;> refine ⟨?_, ?_, ?_⟩ <;> omega

theorem post_processing_threshold_subset {x : List ℚ} {period : ℕ} {ret : List ℤ}
    {th : String} {r2 : List ℤ} (h : post_processing_threshold x period ret th = .ok r2) :
    ∀ i ∈ r2, i ∈ ret := by
  unfold post_processing_threshold at h
  split at h
  · cases h
  · split at h
    · obtain rfl : _ = r2 := Except.ok.inj h
      exact fun i hi => List.mem_of_mem_filter hi
    · cases h

theorem window_ret_bound (O : Oracles) (wx : List ℚ) (period : ℕ) (ma al : ℚ)
    (dir : String) (ev : Option (List (Option ℚ))) (wstart : ℤ) (bk : Bool)
    (s : List ℤ) (e' : Option (List (Option ℚ)))
    (h : detect_anomaly_for_one_window O wx period ma al dir ev wstart bk = .ok (s, e')) :
    s.Nodup ∧ ∀ g ∈ s, ∃ a : ℕ, a < wx.length ∧ g = wstart + a := by
  simp only [detect_anomaly_for_one_window] at h
  split at h
  · cases h
  · split at h
    · cases h
    · rename_i anom_index heq
      have hpair := Except.ok.inj h
      have hs : s = anom_index.foldl
          (fun ret (a : ℕ) => pySetAdd ret (wstart + (a : ℤ))) [] :=
        (congrArg Prod.fst hpair).symm
      obtain ⟨hnd, _, hlt⟩ := esd_ok_spec O _ _ al dir anom_index heq
      constructor
      · rw [hs]
        exact nodup_foldl_pySetAdd (f := fun a => wstart + (a : ℤ)) anom_index []
          List.nodup_nil
      · intro g hg
        rw [hs] at hg
        rcases (mem_foldl_pySetAdd (f := fun a => wstart + (a : ℤ))
            anom_index [] g).1 hg with h0 | ⟨a, ha, rfl⟩
        · cases h0
        · have hal := hlt a ha
          simp only [List.length_map, List.length_range] at hal
          exact ⟨a, hal, rfl⟩

theorem processWindow_inv (O : Oracles) (xq : List ℚ) (n period : ℕ) (ma al : ℚ)
    (dir : String) (ltp : ℕ) (th : Option String) (bk : Bool)
    (hxq : xq.length = n) (hpos : 0 < ltp) (hln : ltp ≤ n) :
    ∀ ws ∈ pyRange n ltp,
      ∀ st st' : List ℤ × Option (List (Option ℚ)),
        processWindow O xq n period ma al dir ltp th bk st ws = .ok st' →
        (st.1.Nodup ∧ ∀ i ∈ st.1, 0 ≤ i ∧ i < (n : ℤ)) →
        st'.1.Nodup ∧ ∀ i ∈ st'.1, 0 ≤ i ∧ i < (n : ℤ) := by
  intro ws hws st st' h hP
  have hwlt : ws < n := mem_pyRange_lt hpos hws
  obtain ⟨hb0, hb1, hb2⟩ := windowBounds_spec hpos hln hwlt
  have hlen : (pySlice xq (windowBounds n ltp ws).1
      ((windowBounds n ltp ws).2 : ℤ)).length =
      (((windowBounds n ltp ws).2 : ℤ) - (windowBounds n ltp ws).1).toNat :=
    pySlice_length hb0 hb1 (by rw [hxq]; exact_mod_cast hb2)
  -- every global index produced from this window lies inside [0, n)
  have hglob : ∀ (g : ℤ), (∃ a : ℕ,
      a < (pySlice xq (windowBounds n ltp ws).1
        ((windowBounds n ltp ws).2 : ℤ)).length ∧
      g = (windowBounds n ltp ws).1 + a) → 0 ≤ g ∧ g < (n : ℤ) := by
    rintro g ⟨a, ha, rfl⟩
    rw [hlen] at ha
    constructor
    · have : (0 : ℤ) ≤ a := Int.ofNat_nonneg a
      omega
    · have h5 : (a : ℤ) < ((windowBounds n ltp ws).2 : ℤ) -
        (windowBounds n ltp ws).1 := by
        omega
      have h6 : ((windowBounds n ltp ws).2 : ℤ) ≤ n := by exact_mod_cast hb2
      omega
  simp only [processWindow] at h
  split at h
  · cases h
  · split at h
    · cases h
    · rename_i wret ev' heqw
      obtain ⟨hwnd, hwmem⟩ := window_ret_bound O _ period ma al dir st.2 _ bk
        wret ev' heqw
      have hstep : ∀ w2 : List ℤ, (∀ i ∈ w2, i ∈ wret) →
          (pySetUnion st.1 w2).Nodup ∧
          ∀ i ∈ pySetUnion st.1 w2, 0 ≤ i ∧ i < (n : ℤ) := by
        intro w2 hsub
        refine ⟨nodup_pySetUnion hP.1, ?_⟩
        intro i hi
        rcases mem_pySetUnion.1 hi with hi1 | hi2
        · exact hP.2 i hi1
        · exact hglob i (hwmem i (hsub i hi2))
      split at h
      · rename_i t0
        split at h
        · obtain rfl : _ = st' := Except.ok.inj h
          exact hstep wret (fun i hi => hi)
        · split at h
          · cases h
          · rename_i r2 heqt
            obtain rfl : _ = st' := Except.ok.inj h
            exact hstep r2 (post_processing_threshold_subset heqt)
      · obtain rfl : _ = st' := Except.ok.inj h
        exact hstep wret (fun i hi => hi)

theorem apply_only_last_subset (n : ℕ) (ol : Option ℤ) (ret : List ℤ) :
    ∀ i ∈ apply_only_last n ol ret, i ∈ ret := by
  intro i hi
  cases ol with
  | none => exact hi
  | some k =>
    change i ∈ (if k = 0 then ret else post_processing_only_last n ret k) at hi
    by_cases hk : k = 0
    · rw [if_pos hk] at hi; exact hi
    · rw [if_neg hk] at hi
      exact List.mem_of_mem_filter hi

theorem apply_only_last_nodup (n : ℕ) (ol : Option ℤ) (ret : List ℤ)
    (h : ret.Nodup) : (apply_only_last n ol ret).Nodup := by
  cases ol with
  | none => exact h
  | some k =>
    change (if k = 0 then ret else post_processing_only_last n ret k).Nodup
    by_cases hk : k = 0
    · rw [if_pos hk]; exact h
    · rw [if_neg hk]; exact h.filter _

theorem build_result_fst {sorted : List ℤ} {evb : Bool}
    {evt : Option (List (Option ℚ))} {l : List ℤ} {evs : Option (List (Option ℚ))}
    (h : build_result sorted evb evt = .ok (l, evs)) : l = sorted := by
  unfold build_result at h
  split at h
  · split at h
    · split at h
      · cases h
      · exact (congrArg Prod.fst (Except.ok.inj h)).symm
    · exact (congrArg Prod.fst (Except.ok.inj h)).symm
  · exact (congrArg Prod.fst (Except.ok.inj h)).symm

theorem windowBounds_zero {n L : ℕ} (hLn : L ≤ n) :
    windowBounds n L 0 = ((0 : ℤ), L) := by
  unfold windowBounds
  dsimp only
  rw [Nat.zero_add, min_eq_right hLn, if_neg (by omega)]
  norm_num

theorem first_window_short_error (O : Oracles) (xq : List ℚ) (n period L : ℕ)
    (ma al : ℚ) (dir : String) (th : Option String) (bk : Bool)
    (st : List ℤ × Option (List (Option ℚ)))
    (hxq : xq.length = n) (hL : 0 < L) (hLn : L ≤ n) (hshort : L < period * 2) :
    (pyRange n L).foldlM (processWindow O xq n period ma al dir L th bk) st =
      .error "Anom detection needs at least 2 periods worth of data." := by
  have hn : 0 < n := lt_of_lt_of_le hL hLn
  obtain ⟨t, ht⟩ := pyRange_head hL hn
  rw [ht, List.foldlM_cons]
  have hPW : processWindow O xq n period ma al dir L th bk st 0 =
      .error "Anom detection needs at least 2 periods worth of data." := by
    simp only [processWindow]
    rw [windowBounds_zero hLn]
    have hsl : (pySlice xq (0 : ℤ) ((L : ℕ) : ℤ)).length = L := by
      rw [pySlice_length (by omega) (by omega) (by rw [hxq]; exact_mod_cast hLn)]
      simp
    dsimp only
    rw [hsl, if_pos hshort]
  rw [hPW]
  rfl

end WindowingLemmas

section MedianLemmas

theorem replicate_getD {α : Type} {n j : ℕ} {c d : α} (h : j < n) :
    (List.replicate n c).getD j d = c := by
  rw [List.getD_eq_getElem?_getD,
    List.getElem?_eq_getElem (by simpa using h), List.getElem_replicate]
  rfl

theorem insertionSort_replicate {n : ℕ} {c : ℚ} :
    List.insertionSort (· ≤ ·) (List.replicate n c) = List.replicate n c := by
  apply List.eq_replicate.2
  constructor
  · rw [(List.perm_insertionSort _ _).length_eq, List.length_replicate]
  · intro b hb
    exact List.eq_of_mem_replicate ((List.perm_insertionSort _ _).mem_iff.1 hb)

theorem median_replicate {n : ℕ} {c : ℚ} (hn : 0 < n) :
    median (List.replicate n c) = c := by
  unfold median
  rw [insertionSort_replicate]
  simp only [List.length_replicate]
  rw [if_neg (by omega)]
  by_cases hpar : n % 2 = 1
  · rw [if_pos hpar, replicate_getD (by omega)]
  · rw [if_neg hpar, replicate_getD (by omega), replicate_getD (by omega)]
    ring

theorem pyRange_self {n : ℕ} (hn : 0 < n) : pyRange n n = [0] := by
  unfold pyRange
  have hdiv : (n + n - 1) / n = 1 := Nat.div_eq_of_lt_le (by omega) (by omega)
  rw [hdiv, show List.range 1 = [0] from rfl]
  simp

end MedianLemmas

section EValueLemmas

theorem updateEValues_spec (seasons trends : List ℚ) (ws : ℤ) (h0 : 0 ≤ ws) :
    ∀ (m : ℕ) (ev : List (Option ℚ)), ws.toNat + m ≤ ev.length →
      ∃ ev', updateEValues seasons trends ws m ev = .ok ev' ∧
        ev'.length = ev.length ∧
        (∀ j : ℕ, (j < ws.toNat ∨ ws.toNat + m ≤ j) →
          ev'.getD j none = ev.getD j none) ∧
        (∀ j : ℕ, ws.toNat ≤ j → j < ws.toNat + m →
          ev'.getD j none =
            (match ev.getD j none with
             | none => some ((Rat.floor (seasons.getD (j - ws.toNat) 0 +
                 trends.getD (j - ws.toNat) 0) : ℤ) : ℚ)
             | some v => some v)) := by
  intro m
  induction m with
  | zero =>
    intro ev _
    exact ⟨ev, rfl, rfl, fun j _ => rfl, fun j hj1 hj2 => by omega⟩
  | succ m ih =>
    intro ev hm
    obtain ⟨ev1, heq1, hlen1, hframe1, hwin1⟩ := ih ev (by omega)
    have hj0 : ws.toNat + m < ev.length := by omega
    have hj0' : ws.toNat + m < ev1.length := by omega
    have hcast : ws + (m : ℤ) = ((ws.toNat + m : ℕ) : ℤ) := by omega
    have hnormval : pyNorm ev1.length (ws + m) = some (ws.toNat + m) := by
      rw [hcast, pyNorm_eq_some (by omega) (by exact_mod_cast hj0')]
      exact congrArg some (by omega)
    have hcur : ev1.getD (ws.toNat + m) none = ev.getD (ws.toNat + m) none :=
      hframe1 _ (Or.inr (le_refl _))
    have hgo : pyGetOpt ev1 (ws + m) = .ok (ev.getD (ws.toNat + m) none) := by
      simp only [pyGetOpt, hnormval, hcur]
    simp only [updateEValues, heq1, hgo]
    cases hc : ev.getD (ws.toNat + m) none with
    | none =>
      have hso : pySetOpt ev1 (ws + m)
          ((Rat.floor (seasons.getD m 0 + trends.getD m 0) : ℤ) : ℚ) =
          .ok (ev1.set (ws.toNat + m)
            (some ((Rat.floor (seasons.getD m 0 + trends.getD m 0) : ℤ) : ℚ))) := by
        simp only [pySetOpt, hnormval]
      rw [hso]
      refine ⟨_, rfl, ?_, ?_, ?_⟩
      · rw [List.length_set, hlen1]
      · intro j hj
        have hne : ws.toNat + m ≠ j := by omega
        rw [List.getD_eq_getElem?_getD, List.getElem?_set_ne hne,
          ← List.getD_eq_getElem?_getD]
        exact hframe1 j (by omega)
      · intro j hj1 hj2
        by_cases hj : j = ws.toNat + m
        · subst hj
          rw [List.getD_eq_getElem?_getD, List.getElem?_set_self hj0']
          rw [hc]
          have : ws.toNat + m - ws.toNat = m := by omega
          rw [this]
          rfl
        · have hne : ws.toNat + m ≠ j := fun hcon => hj hcon.symm
          rw [List.getD_eq_getElem?_getD, List.getElem?_set_ne hne,
            ← List.getD_eq_getElem?_getD]
          exact hwin1 j hj1 (by omega)
    | some v =>
      refine ⟨ev1, rfl, hlen1, ?_, ?_⟩
      · intro j hj
        exact hframe1 j (by omega)
      · intro j hj1 hj2
        by_cases hj : j = ws.toNat + m
        · subst hj
          rw [hcur, hc]
        · exact hwin1 j hj1 (by omega)

theorem mapM_pyGetOpt (table : List (Option ℚ)) :
    ∀ ret : List ℤ, (∀ i ∈ ret, 0 ≤ i ∧ i < (table.length : ℤ)) →
      ret.mapM (pyGetOpt table) =
        .ok (ret.map fun i => table.getD i.toNat none) := by
  intro ret
  induction ret with
  | nil => intro _; rfl
  | cons a t ih =>
    intro hmem
    rw [List.mapM_cons]
    have ha := hmem a (List.mem_cons_self a t)
    have hnorm : pyNorm table.length a = some a.toNat := pyNorm_eq_some ha.1 ha.2
    have hga : pyGetOpt table a = .ok (table.getD a.toNat none) := by
      simp only [pyGetOpt, hnorm]
    rw [hga, ih (fun i hi => hmem i (List.mem_cons_of_mem a hi))]
    rfl

end EValueLemmas

/-- Claim C3: for a recognized direction, the ESD tester never raises:
it returns a list of removed indices, expressed in the original index
space of the residual sequence (all indices below the residual count),
without repetition (each recorded index is removed from the working
set), of length at most `max_outlier`; and the extreme point of each
iteration is the stable argmax: `idxmax` returns an element that is
maximal and is preceded only by strictly smaller scores. -/
theorem esd_contract (O : Oracles) (x : List ℚ) (mo : ℕ) (al : ℚ) (dir : String)
    (hdir : dir = "both" ∨ dir = "pos" ∨ dir = "neg") :
    (∃ l, esd O x mo al dir = .ok l ∧ l.Nodup ∧ l.length ≤ mo ∧
      ∀ j ∈ l, j < x.length) ∧
    (∀ (t : List (ℕ × ℚ)) (a p : ℕ × ℚ), idxmax (a :: t) = some p →
      (∀ q ∈ a :: t, q.2 ≤ p.2) ∧
      ∃ l1 l2, a :: t = l1 ++ p :: l2 ∧ ∀ q ∈ l1, q.2 < p.2) := by
  constructor
  · obtain ⟨l, hl⟩ := esdGo_total O x.length al dir hdir mo 1 x.enum []
    have hl' : esd O x mo al dir = .ok l := hl
    exact ⟨l, hl', esd_ok_spec O x mo al dir l hl'⟩
  · exact fun t a p hidx => idxmax_spec t a p hidx

/-- Claim C3 witness: a concrete two-iteration run. -/
theorem esd_contract_witness :
    ("both" = "both" ∨ "both" = "pos" ∨ "both" = "neg") ∧
    ((∃ l, esd
        ⟨fun x _ => (List.replicate x.length 0, List.replicate x.length 0),
         fun _ => [], fun _ _ => 1, fun _ => 2⟩
        [0, 1, 10] 2 (1 / 20) "both" = .ok l ∧ l.Nodup ∧ l.length ≤ 2 ∧
        ∀ j ∈ l, j < ([0, 1, 10] : List ℚ).length) ∧
      (∀ (t : List (ℕ × ℚ)) (a p : ℕ × ℚ), idxmax (a :: t) = some p →
        (∀ q ∈ a :: t, q.2 ≤ p.2) ∧
        ∃ l1 l2, a :: t = l1 ++ p :: l2 ∧ ∀ q ∈ l1, q.2 < p.2)) :=
  ⟨Or.inl rfl,
   esd_contract
     ⟨fun x _ => (List.replicate x.length 0, List.replicate x.length 0),
      fun _ => [], fun _ _ => 1, fun _ => 2⟩
     [0, 1, 10] 2 (1 / 20) "both" (Or.inl rfl)⟩

/-- Claim C4 (amended): provided `longterm_period` does not exceed the
series length (the default window is the whole series), every successful
result of `detect_anoms` is a strictly ascending list of indices inside
`0..n-1`, for every direction, threshold, recency and expected-value
setting. -/
theorem detect_sorted_range (O : Oracles) (x : List PyFloat) (period : ℕ)
    (ma al : ℚ) (dir : String) (ltp : Option ℕ) (ol : Option ℤ)
    (th : Option String) (ev bk : Bool)
    (hltp : ltp.getD x.length ≤ x.length)
    (l : List ℤ) (evs : Option (List (Option ℚ)))
    (h : detect_anoms O x period ma al dir ltp ol th ev bk = .ok (l, evs)) :
    l.Sorted (· < ·) ∧ ∀ i ∈ l, 0 ≤ i ∧ i < (x.length : ℤ) := by
  simp only [detect_anoms] at h
  split at h
  · cases h
  · split at h
    · cases h
    · split at h
      · cases h
      · split at h
        · cases h
        · rename_i hnz
          split at h
          · cases h
          · rename_i ret0 e_values heqF
            have hP : (ret0, e_values).1.Nodup ∧
                ∀ i ∈ (ret0, e_values).1, 0 ≤ i ∧ i < ((x.length : ℤ)) := by
              refine foldlM_except_inv _
                (fun st => st.1.Nodup ∧ ∀ i ∈ st.1, 0 ≤ i ∧ i < ((x.length : ℤ)))
                _ _ ⟨List.nodup_nil, by simp⟩ ?_ _ heqF
              intro a ha t t' hPt hstep
              exact processWindow_inv O _ x.length period ma al dir _ th bk
                (by simp) (Nat.pos_of_ne_zero hnz) hltp a ha t t' hstep hPt
            have hl : l = List.insertionSort (· ≤ ·)
                (apply_only_last x.length ol ret0) := build_result_fst h
            have hnd : (apply_only_last x.length ol ret0).Nodup :=
              apply_only_last_nodup _ _ _ hP.1
            have hsorted : l.Sorted (· ≤ ·) := by
              rw [hl]; exact List.sorted_insertionSort _ _
            have hlnd : l.Nodup := by
              rw [hl]
              exact ((List.perm_insertionSort _ _).nodup_iff).2 hnd
            refine ⟨hsorted.lt_of_le hlnd, ?_⟩
            intro i hi
            rw [hl] at hi
            have hi' : i ∈ apply_only_last x.length ol ret0 :=
              ((List.perm_insertionSort _ _).mem_iff).1 hi
            exact hP.2 i (apply_only_last_subset _ _ _ i hi')

/-- Claim C4 witness: a concrete single-window run whose result `[2]`
is strictly sorted and inside bounds. -/
theorem detect_sorted_range_witness :
    detect_anoms
      ⟨fun x _ => (List.replicate x.length 0, List.replicate x.length 0),
       fun _ => [], fun _ _ => 0, fun _ => 1⟩
      ([0, 1, 10].map some) 1 (1 / 10) (1 / 20) "both" none none none false
      false = .ok ([2], none) ∧
    (List.Sorted (· < ·) ([2] : List ℤ) ∧
      ∀ i ∈ ([2] : List ℤ), 0 ≤ i ∧ i < ((([0, 1, 10].map some : List PyFloat)).length : ℤ)) :=
  ⟨by with_unfolding_all decide,
   detect_sorted_range
     ⟨fun x _ => (List.replicate x.length 0, List.replicate x.length 0),
      fun _ => [], fun _ _ => 0, fun _ => 1⟩
     ([0, 1, 10].map some) 1 (1 / 10) (1 / 20) "both" none none none false
     false (le_refl _) [2] none (by with_unfolding_all decide)⟩

/-- Claim C5 (amended): for `0 < L < n` with `L` not dividing `n`, the
orchestrator produces at least two windows over multiples of `L`; every
processed window slice has length exactly `L` with
`window_end - window_start = L` (the final window is back-aligned to
start `n - L`), the final window overlaps the previous one
(`n - L < (k-1)·L` while `(k-2)·L ≤ n - L`), and overlapping indices
are deduplicated by the set union used to merge windows. -/
theorem windowing_back_alignment (x : List ℚ) (n L : ℕ) (hx : x.length = n)
    (hL : 0 < L) (hLn : L < n) (hnd : ¬ (L ∣ n)) :
    2 ≤ (pyRange n L).length ∧
    (∀ ws ∈ pyRange n L,
      ((windowBounds n L ws).2 : ℤ) - (windowBounds n L ws).1 = (L : ℤ) ∧
      (pySlice x (windowBounds n L ws).1 ((windowBounds n L ws).2 : ℤ)).length = L) ∧
    windowBounds n L (((n + L - 1) / L - 1) * L) = (((n : ℤ) - L), n) ∧
    (n : ℤ) - L < ((((n + L - 1) / L - 1) * L : ℕ) : ℤ) + L ∧
    (((((n + L - 1) / L - 2) * L : ℕ)) : ℤ) ≤ (n : ℤ) - L ∧
    (∀ (a b : List ℤ) (v : ℤ), v ∈ pySetUnion a b ↔ v ∈ a ∨ v ∈ b) := by
  set k := (n + L - 1) / L with hk
  have hF2 : k * L ≤ n + L - 1 := Nat.div_mul_le_self _ _
  have hF1 : n ≤ k * L := by
    by_contra hcon
    push_neg at hcon
    have hs : (k + 1) * L = k * L + L := Nat.succ_mul k L
    have h2 : k + 1 ≤ (n + L - 1) / L := (Nat.le_div_iff_mul_le hL).2 (by omega)
    omega
  have hF3 : n < k * L := by
    rcases Nat.lt_or_ge n (k * L) with h | h
    · exact h
    · exact absurd ⟨k, by rw [Nat.mul_comm]; omega⟩ hnd
  have hF4 : 2 ≤ k := by
    have h2 : 2 * L ≤ n + L - 1 := by omega
    have := (Nat.le_div_iff_mul_le hL).2 h2
    omega
  have hwin : ∀ ws ∈ pyRange n L,
      ((windowBounds n L ws).2 : ℤ) - (windowBounds n L ws).1 = (L : ℤ) ∧
      (pySlice x (windowBounds n L ws).1 ((windowBounds n L ws).2 : ℤ)).length = L := by
    intro ws hws
    have hwlt : ws < n := mem_pyRange_lt hL hws
    have hdiff : ((windowBounds n L ws).2 : ℤ) - (windowBounds n L ws).1 = (L : ℤ) := by
      unfold windowBounds
      dsimp only
      split <;> rename_i hcond <;> omega
    obtain ⟨hb0, hb1, hb2⟩ := windowBounds_spec hL (le_of_lt hLn) hwlt
    have hlen := pySlice_length (l := x) hb0 hb1 (by rw [hx]; exact_mod_cast hb2)
    refine ⟨hdiff, ?_⟩
    rw [hlen, hdiff]
    exact Int.toNat_ofNat L
  refine ⟨?_, hwin, ?_, ?_, ?_, fun a b v => mem_pySetUnion⟩
  · unfold pyRange
    simp only [List.length_map, List.length_range]
    omega
  · have hklL : (k - 1) * L = k * L - L := by
      have := Nat.sub_mul k 1 L
      omega
    unfold windowBounds
    have hend : min n ((k - 1) * L + L) = n := by
      apply min_eq_left
      omega
    dsimp only
    rw [hend, if_pos (by omega)]
  · have hklL : (k - 1) * L = k * L - L := by
      have := Nat.sub_mul k 1 L
      omega
    omega
  · have hklL : (k - 2) * L = k * L - 2 * L := by
      have := Nat.sub_mul k 2 L
      omega
    omega

/-- Claim C5 witness: `n = 10`, `L = 7` gives windows starting at 0 and
7, the latter back-aligned to 3. -/
theorem windowing_back_alignment_witness :
    2 ≤ (pyRange 10 7).length ∧
    (∀ ws ∈ pyRange 10 7,
      ((windowBounds 10 7 ws).2 : ℤ) - (windowBounds 10 7 ws).1 = (7 : ℤ) ∧
      (pySlice (List.replicate 10 (1 : ℚ)) (windowBounds 10 7 ws).1
        ((windowBounds 10 7 ws).2 : ℤ)).length = 7) ∧
    windowBounds 10 7 (((10 + 7 - 1) / 7 - 1) * 7) = (((10 : ℤ) - 7), 10) ∧
    (10 : ℤ) - 7 < ((((10 + 7 - 1) / 7 - 1) * 7 : ℕ) : ℤ) + 7 ∧
    (((((10 + 7 - 1) / 7 - 2) * 7 : ℕ)) : ℤ) ≤ (10 : ℤ) - 7 ∧
    (∀ (a b : List ℤ) (v : ℤ), v ∈ pySetUnion a b ↔ v ∈ a ∨ v ∈ b) :=
  windowing_back_alignment (List.replicate 10 (1 : ℚ)) 10 7 (by simp)
    (by decide) (by decide) (by decide)

/-- Claim C1: the threshold filter is handed global candidate indices
together with the window slice; at the failing input below (two windows
of length 7 over a series of length 10, `threshold='p99'`,
`direction='neg'`), the back-aligned second window keeps global index 4
by comparing `window_x[4] = x[7] = 9` against its chunk-maxima p99
threshold `447/50`, even though the raw series value at index 4 is
`-50 < 447/50`.  So a surviving index can have a raw value strictly
below the computed threshold, contrary to the claim. -/
theorem threshold_filter_compares_wrong_value :
    detect_anoms
      ⟨fun x _ => (List.replicate x.length 0, List.replicate x.length 0),
       fun _ => [], fun _ _ => 337 / 100, fun _ => 107 / 10⟩
      ([5, 6, 4, 4, -50, 5, 6, 9, 4, 6].map some) 3 (1 / 10) (1 / 20) "neg"
      (some 7) none (some "p99") false false = .ok ([4], none) ∧
    pyGet ([5, 6, 4, 4, -50, 5, 6, 9, 4, 6] : List ℚ) 4 = some (-50) ∧
    threshold_value (pySlice ([5, 6, 4, 4, -50, 5, 6, 9, 4, 6] : List ℚ) 3 10) 3
      "p99" = 447 / 50 ∧
    ¬ (447 / 50 : ℚ) ≤ -50 := by
  with_unfolding_all decide

/-- Claim C2: a NaN-free series whose windows all have length
`6 = 2 × period`, with documented parameter values
(`max_anoms = 0.1`, `alpha = 0.05`, `direction='both'`,
`longterm_period = 6`, `threshold='p99'`), makes `detect_anoms` raise
an IndexError: the second window flags global index 11 and the
threshold filter then evaluates `window_x[11]` on the length-6 window
slice.  This contradicts the claim that `detect_anoms` never raises
once validation passes. -/
theorem detect_raises_after_validation :
    detect_anoms
      ⟨fun x _ => (List.replicate x.length 0, List.replicate x.length 0),
       fun _ => [], fun _ _ => 87 / 20, fun _ => 127 / 10⟩
      ([1, 1, 1, 1, 1, 1, 1, 2, 3, 4, 5, 100].map some) 3 (1 / 10) (1 / 20)
      "both" (some 6) none (some "p99") false false =
      .error "IndexError: list index out of range" := by
  with_unfolding_all decide

/-- Claim C4 (counterexample): with `longterm_period = 13` exceeding the
series length 10, the single window is back-aligned to start `-3`; the
Python slice wraps it to `x[7:10]` and the detected local outlier 2 is
reported as global index `-3 + 2 = -1`, which is not in `0..n-1`. -/
theorem detect_returns_negative_index :
    detect_anoms
      ⟨fun x _ => (List.replicate x.length 0, List.replicate x.length 0),
       fun _ => [], fun _ _ => 382 / 10, fun _ => 662 / 10⟩
      ([5, 5, 5, 5, 5, 5, 5, 0, 1, 9].map some) 1 (1 / 10) (1 / 20) "both"
      (some 13) none none false false = .ok ([-1], none) ∧
    ¬ (0 ≤ (-1 : ℤ)) := by
  with_unfolding_all decide

/-- Claim C5 (counterexample): `longterm_period = 13` does not divide
the length `10`, yet there is exactly one window (so no previous window
for the final window to overlap) and the processed slice has length 3,
not `longterm_period`: after back-alignment `window_start = -3` the
Python slice `x[-3:10]` wraps to the last three elements. -/
theorem windowing_not_identical_length :
    ¬ (13 ∣ 10) ∧ pyRange 10 13 = [0] ∧ windowBounds 10 13 0 = (-3, 10) ∧
    (pySlice (List.replicate 10 (37 : ℚ)) (-3) 10).length = 3 ∧ (3 : ℕ) ≠ 13 := by
  with_unfolding_all decide

/-- Claim C10 (counterexample): an unrecognized direction does not
always fail inside the ESD loop: on a constant series (all parameters
passing validation) the first iteration computes `mad = 0` and stops
before the direction is ever consulted, so `detect_anoms` returns
normally instead of failing. -/
theorem invalid_direction_returns_normally :
    detect_anoms
      ⟨fun x _ => (List.replicate x.length 0, List.replicate x.length 0),
       fun _ => [], fun _ _ => 0, fun _ => 0⟩
      (List.replicate 4 (some 1)) 2 (1 / 10) (1 / 20) "wat" none none none
      false false = .ok ([], none) := by
  with_unfolding_all decide

/-- Claim C6: validation is fail-fast and ordered.  A `max_anoms`
outside `(0, 0.49]` aborts with its message regardless of every other
argument (even NaN data); with `max_anoms` valid, `alpha ≤ 0` aborts
next; then any NaN value aborts; and with all three checks passed, a
window length (uniformly `longterm_period`, including the back-aligned
final window) below `2·period` aborts at the first window with the
insufficient-data message.  In every case the result is the error
alone — no partial output exists. -/
theorem detect_validation (O : Oracles) (x : List PyFloat) (period : ℕ)
    (ma al : ℚ) (dir : String) (ltp : Option ℕ) (ol : Option ℤ)
    (th : Option String) (ev bk : Bool) :
    ((ma > 49 / 100 ∨ ma ≤ 0) →
      detect_anoms O x period ma al dir ltp ol th ev bk =
        .error "max_anoms must be >0 and <= 0.49") ∧
    (¬ (ma > 49 / 100 ∨ ma ≤ 0) → al ≤ 0 →
      detect_anoms O x period ma al dir ltp ol th ev bk =
        .error "alpha must greater than 0.") ∧
    (¬ (ma > 49 / 100 ∨ ma ≤ 0) → ¬ al ≤ 0 → none ∈ x →
      detect_anoms O x period ma al dir ltp ol th ev bk =
        .error "data contains NaN value.") ∧
    (¬ (ma > 49 / 100 ∨ ma ≤ 0) → ¬ al ≤ 0 → ¬ none ∈ x →
      0 < ltp.getD x.length → ltp.getD x.length ≤ x.length →
      ltp.getD x.length < period * 2 →
      detect_anoms O x period ma al dir ltp ol th ev bk =
        .error "Anom detection needs at least 2 periods worth of data.") := by
  refine ⟨?_, ?_, ?_, ?_⟩
  · intro h
    simp only [detect_anoms]
    rw [if_pos h]
  · intro h1 h2
    simp only [detect_anoms]
    rw [if_neg h1, if_pos h2]
  · intro h1 h2 h3
    simp only [detect_anoms]
    rw [if_neg h1, if_neg h2, if_pos (List.any_eq_true.2 ⟨none, h3, rfl⟩)]
  · intro h1 h2 h3 hpos hln hshort
    simp only [detect_anoms]
    have hnan : ¬ (x.any isnan = true) := by
      intro hc
      rcases List.any_eq_true.1 hc with ⟨v, hv, hvn⟩
      rw [show isnan v = v.isNone from rfl, Option.isNone_iff_eq_none] at hvn
      subst hvn
      exact h3 hv
    rw [if_neg h1, if_neg h2, if_neg hnan, if_neg (by omega),
      first_window_short_error O _ x.length period _ ma al dir th bk _
        (by simp) hpos hln hshort]

/-- Claim C6 witness: each of the four validation failures at a
concrete input. -/
theorem detect_validation_witness :
    detect_anoms
      ⟨fun x _ => (List.replicate x.length 0, List.replicate x.length 0),
       fun _ => [], fun _ _ => 0, fun _ => 1⟩
      [some 1, some 2] 1 (1 / 2) (1 / 20) "both" none none none false false =
        .error "max_anoms must be >0 and <= 0.49" ∧
    detect_anoms
      ⟨fun x _ => (List.replicate x.length 0, List.replicate x.length 0),
       fun _ => [], fun _ _ => 0, fun _ => 1⟩
      [some 1, some 2] 1 (1 / 10) 0 "both" none none none false false =
        .error "alpha must greater than 0." ∧
    detect_anoms
      ⟨fun x _ => (List.replicate x.length 0, List.replicate x.length 0),
       fun _ => [], fun _ _ => 0, fun _ => 1⟩
      [some 1, none] 1 (1 / 10) (1 / 20) "both" none none none false false =
        .error "data contains NaN value." ∧
    detect_anoms
      ⟨fun x _ => (List.replicate x.length 0, List.replicate x.length 0),
       fun _ => [], fun _ _ => 0, fun _ => 1⟩
      [some 1, some 2, some 3] 2 (1 / 10) (1 / 20) "both" none none none false
      false = .error "Anom detection needs at least 2 periods worth of data." :=
  ⟨(detect_validation _ _ 1 (1 / 2) (1 / 20) "both" none none none false
      false).1 (by norm_num),
   (detect_validation _ _ 1 (1 / 10) 0 "both" none none none false
      false).2.1 (by norm_num) (le_refl 0),
   (detect_validation _ _ 1 (1 / 10) (1 / 20) "both" none none none false
      false).2.2.1 (by norm_num) (by norm_num) (by simp),
   (detect_validation _ _ 2 (1 / 10) (1 / 20) "both" none none none false
      false).2.2.2 (by norm_num) (by norm_num) (by simp) (by simp)
      (by simp) (by simp)⟩

/-- Claim C7: the expected-value population is first-writer-wins and
total on the visited range.  For a window of length `m` starting at
`window_start ≥ 0` with the table long enough: the update succeeds,
preserves the table length, leaves every entry outside the window
untouched, sets every still-empty entry inside the window to
`floor(seasonal + trend)` at its window offset, and never overwrites a
populated entry.  Moreover the returned expected-value list is exactly
the table looked up at each surviving index in order. -/
theorem e_value_table_contract (seasons trends : List ℚ) (ws : ℤ) (m : ℕ)
    (ev : List (Option ℚ)) (h0 : 0 ≤ ws) (hm : ws.toNat + m ≤ ev.length) :
    (∃ ev', updateEValues seasons trends ws m ev = .ok ev' ∧
      ev'.length = ev.length ∧
      (∀ j : ℕ, (j < ws.toNat ∨ ws.toNat + m ≤ j) →
        ev'.getD j none = ev.getD j none) ∧
      (∀ j : ℕ, ws.toNat ≤ j → j < ws.toNat + m →
        ev'.getD j none =
          (match ev.getD j none with
           | none => some ((Rat.floor (seasons.getD (j - ws.toNat) 0 +
               trends.getD (j - ws.toNat) 0) : ℤ) : ℚ)
           | some v => some v))) ∧
    (∀ (table : List (Option ℚ)) (ret : List ℤ),
      (∀ i ∈ ret, 0 ≤ i ∧ i < (table.length : ℤ)) →
      ret.mapM (pyGetOpt table) =
        .ok (ret.map fun i => table.getD i.toNat none)) :=
  ⟨updateEValues_spec seasons trends ws h0 m ev hm,
   fun table ret h => mapM_pyGetOpt table ret h⟩

/-- Claim C7 witness: a concrete window `[1/2, 5/2]` over a table with
one populated entry; the populated entry survives, empty visited
entries receive `floor(seasonal + trend)`. -/
theorem e_value_table_contract_witness :
    updateEValues [1 / 2, 5 / 2] [0, 0] 1 2 [some 9, none, none, some 7] =
      .ok [some 9, some 0, some 2, some 7] ∧
    ((∃ ev', updateEValues [1 / 2, 5 / 2] [0, 0] 1 2 [some 9, none, none, some 7] =
        .ok ev' ∧
      ev'.length = ([some 9, none, none, some 7] : List (Option ℚ)).length ∧
      (∀ j : ℕ, (j < (1 : ℤ).toNat ∨ (1 : ℤ).toNat + 2 ≤ j) →
        ev'.getD j none = ([some 9, none, none, some 7] : List (Option ℚ)).getD j none) ∧
      (∀ j : ℕ, (1 : ℤ).toNat ≤ j → j < (1 : ℤ).toNat + 2 →
        ev'.getD j none =
          (match ([some 9, none, none, some 7] : List (Option ℚ)).getD j none with
           | none => some ((Rat.floor (([1 / 2, 5 / 2] : List ℚ).getD (j - (1 : ℤ).toNat) 0 +
               ([0, 0] : List ℚ).getD (j - (1 : ℤ).toNat) 0) : ℤ) : ℚ)
           | some v => some v))) ∧
    (∀ (table : List (Option ℚ)) (ret : List ℤ),
      (∀ i ∈ ret, 0 ≤ i ∧ i < (table.length : ℤ)) →
      ret.mapM (pyGetOpt table) =
        .ok (ret.map fun i => table.getD i.toNat none))) :=
  ⟨by with_unfolding_all decide,
   e_value_table_contract [1 / 2, 5 / 2] [0, 0] 1 2 [some 9, none, none, some 7]
     (by decide) (by decide)⟩

/-- Claim C8: on a constant series of positive length at least
`2·period`, with the STL oracle returning a constant seasonal component
on constant input (as real STL does), `detect_anoms` with the default
`max_anoms`/`alpha` returns no anomalies for every direction string:
the residuals are constant, so the first ESD iteration computes
MAD = 0 and stops before any outlier is recorded — indeed before the
direction is even consulted. -/
theorem detect_constant (O : Oracles) (n period : ℕ) (c s : ℚ)
    (direction : String) (hn : 0 < n) (hp : period * 2 ≤ n)
    (hstl : (O.stl (List.replicate n c) period).1 = List.replicate n s) :
    detect_anoms O (List.replicate n (some c)) period (1 / 10) (1 / 20)
      direction none none none false false = .ok ([], none) := by
  have hfalse : ¬ ((false : Bool) = true) := by decide
  have hesd : esd O (List.replicate n (c - s - c))
      (max 1 (Rat.floor ((n : ℚ) * (1 / 10))).toNat) (1 / 20) direction =
      .ok [] := by
    have h1 : 1 ≤ max 1 (Rat.floor ((n : ℚ) * (1 / 10))).toNat :=
      le_max_left _ _
    obtain ⟨f, hf⟩ := Nat.exists_eq_succ_of_ne_zero (n := max 1
      (Rat.floor ((n : ℚ) * (1 / 10))).toNat) (by omega)
    have hmad : median ((List.replicate n (c - s - c)).map fun value =>
        pyabs (value - median (List.replicate n (c - s - c)))) *
        MAD_CONSTANT = 0 := by
      rw [median_replicate hn, List.map_replicate]
      have h0 : pyabs ((c - s - c) - (c - s - c)) = 0 := by
        rw [sub_self]
        norm_num [pyabs]
      rw [h0, median_replicate hn, zero_mul]
    unfold esd
    rw [hf]
    simp only [esdGo, List.enum_map_snd, List.length_replicate]
    rw [if_pos hmad]
  have hwp : detect_anomaly_for_one_window O (List.replicate n c) period
      (1 / 10) (1 / 20) direction none 0 false = .ok ([], none) := by
    simp only [detect_anomaly_for_one_window, e_values_step,
      List.length_replicate]
    rw [if_neg hfalse, hstl]
    have htr : get_trends_by_median (List.replicate n c) =
        List.replicate n c := by
      unfold get_trends_by_median
      rw [List.length_replicate, median_replicate hn]
    rw [htr]
    have hres : (List.range n).map (fun i =>
        (List.replicate n c).getD i 0 - (List.replicate n s).getD i 0 -
          (List.replicate n c).getD i 0) = List.replicate n (c - s - c) := by
      apply List.eq_replicate.2
      refine ⟨by simp, ?_⟩
      intro b hb
      rcases List.mem_map.1 hb with ⟨i, hi, rfl⟩
      have hilt : i < n := List.mem_range.1 hi
      rw [replicate_getD hilt, replicate_getD hilt]
    rw [hres, hesd]
    rfl
  have hpw : processWindow O (List.replicate n c) n period (1 / 10) (1 / 20)
      direction n none false (([], none) : List ℤ × Option (List (Option ℚ)))
      0 = .ok ([], none) := by
    simp only [processWindow]
    rw [windowBounds_zero (le_refl n)]
    have hfull : pySlice (List.replicate n c) (0 : ℤ) ((n : ℕ) : ℤ) =
        List.replicate n c := by
      have h := pySlice_full (List.replicate n c)
      rwa [List.length_replicate] at h
    dsimp only
    rw [hfull, if_neg (by rw [List.length_replicate]; omega), hwp]
    rfl
  simp only [detect_anoms, List.length_replicate, Option.getD_none,
    List.map_replicate, Option.getD_some]
  have hnan : ¬ ((List.replicate n (some c)).any isnan = true) := by
    intro hc
    rcases List.any_eq_true.1 hc with ⟨v, hv, hvb⟩
    rw [List.eq_of_mem_replicate hv] at hvb
    simp [isnan] at hvb
  rw [if_neg (by norm_num : ¬ ((1 : ℚ) / 10 > 49 / 100 ∨ (1 : ℚ) / 10 ≤ 0)),
    if_neg (by norm_num : ¬ ((1 : ℚ) / 20 ≤ 0)), if_neg hnan,
    if_neg (by omega : ¬ (n = 0)), if_neg hfalse,
    pyRange_self hn, List.foldlM_cons, hpw]
  rfl

/-- Claim C8 witness: a length-6 constant series with period 3. -/
theorem detect_constant_witness :
    detect_anoms
      ⟨fun x _ => (List.replicate x.length 0, List.replicate x.length 0),
       fun _ => [], fun _ _ => 0, fun _ => 1⟩
      (List.replicate 6 (some 5)) 3 (1 / 10) (1 / 20) "both" none none none
      false false = .ok ([], none) :=
  detect_constant
    ⟨fun x _ => (List.replicate x.length 0, List.replicate x.length 0),
     fun _ => [], fun _ _ => 0, fun _ => 1⟩
    6 3 5 0 "both" (by decide) (by decide) (by simp)

/-- Claim C10 (amended): the direction is indeed never validated up
front, but an unrecognized direction fails with the unhandled NameError
only when the window reaches the scoring step, i.e. when the
first-iteration MAD of the window residuals is nonzero; otherwise the
call returns normally (see the constant-series counterexample).  Under
default windowing, valid numeric parameters, NaN-free data of length at
least `2·period`, and a nonzero first MAD, `detect_anoms` with an
unrecognized direction propagates the unhandled error. -/
theorem invalid_direction_nameerror (O : Oracles) (x : List PyFloat)
    (period : ℕ) (ma al : ℚ) (dir : String)
    (h1 : ¬ (ma > 49 / 100 ∨ ma ≤ 0)) (h2 : ¬ al ≤ 0) (h3 : ¬ none ∈ x)
    (hn : 0 < x.length) (hp : period * 2 ≤ x.length)
    (hd1 : dir ≠ "both") (hd2 : dir ≠ "pos") (hd3 : dir ≠ "neg")
    (hmad : median (((List.range x.length).map fun i =>
        (x.map fun v => v.getD 0).getD i 0 -
          (O.stl (x.map fun v => v.getD 0) period).1.getD i 0 -
          (get_trends_by_median (x.map fun v => v.getD 0)).getD i 0).map
        fun value => pyabs (value - median ((List.range x.length).map fun i =>
          (x.map fun v => v.getD 0).getD i 0 -
            (O.stl (x.map fun v => v.getD 0) period).1.getD i 0 -
            (get_trends_by_median (x.map fun v => v.getD 0)).getD i 0))) *
        MAD_CONSTANT ≠ 0) :
    detect_anoms O x period ma al dir none none none false false =
      .error "NameError: ares is not defined" := by
  have hfalse : ¬ ((false : Bool) = true) := by decide
  have hsf : scoreFn dir = none := by
    unfold scoreFn
    rw [if_neg hd1, if_neg hd2, if_neg hd3]
  set xq := x.map fun v => v.getD 0 with hxq
  have hxql : xq.length = x.length := by rw [hxq, List.length_map]
  set residuals := (List.range x.length).map fun i =>
    xq.getD i 0 - (O.stl xq period).1.getD i 0 -
      (get_trends_by_median xq).getD i 0 with hresid
  have hesd : esd O residuals
      (max 1 (Rat.floor ((x.length : ℚ) * ma)).toNat) al dir =
      .error "NameError: ares is not defined" := by
    have hle : 1 ≤ max 1 (Rat.floor ((x.length : ℚ) * ma)).toNat :=
      le_max_left _ _
    obtain ⟨f, hf⟩ := Nat.exists_eq_succ_of_ne_zero (n := max 1
      (Rat.floor ((x.length : ℚ) * ma)).toNat) (by omega)
    unfold esd
    rw [hf]
    simp only [esdGo, List.enum_map_snd]
    rw [if_neg hmad, hsf]
  have hwp : detect_anomaly_for_one_window O xq period ma al dir none 0
      false = .error "NameError: ares is not defined" := by
    simp only [detect_anomaly_for_one_window, e_values_step]
    rw [if_neg hfalse]
    rw [hxql]
    rw [show (List.range x.length).map (fun i =>
        xq.getD i 0 - (O.stl xq period).1.getD i 0 -
          (get_trends_by_median xq).getD i 0) = residuals from rfl]
    rw [hesd]
  have hpw : processWindow O xq x.length period ma al dir x.length none false
      (([], none) : List ℤ × Option (List (Option ℚ))) 0 =
      .error "NameError: ares is not defined" := by
    simp only [processWindow]
    rw [windowBounds_zero (le_refl x.length)]
    have hfull : pySlice xq (0 : ℤ) ((x.length : ℕ) : ℤ) = xq := by
      have h := pySlice_full xq
      rwa [hxql] at h
    dsimp only
    rw [hfull, if_neg (by rw [hxql]; omega), hwp]
  have hnan : ¬ (x.any isnan = true) := by
    intro hc
    rcases List.any_eq_true.1 hc with ⟨v, hv, hvn⟩
    rw [show isnan v = v.isNone from rfl, Option.isNone_iff_eq_none] at hvn
    subst hvn
    exact h3 hv
  simp only [detect_anoms, Option.getD_none]
  rw [if_neg h1, if_neg h2, if_neg hnan, if_neg (by omega : ¬ (x.length = 0)),
    if_neg hfalse, pyRange_self hn, List.foldlM_cons, hpw]
  rfl

/-- Claim C10 witness: a non-constant series with an unrecognized
direction fails with the NameError. -/
theorem invalid_direction_nameerror_witness :
    detect_anoms
      ⟨fun x _ => (List.replicate x.length 0, List.replicate x.length 0),
       fun _ => [], fun _ _ => 0, fun _ => 1⟩
      ([0, 1, 2, 9].map some) 1 (1 / 10) (1 / 20) "wat" none none none false
      false = .error "NameError: ares is not defined" :=
  invalid_direction_nameerror
    ⟨fun x _ => (List.replicate x.length 0, List.replicate x.length 0),
     fun _ => [], fun _ _ => 0, fun _ => 1⟩
    ([0, 1, 2, 9].map some) 1 (1 / 10) (1 / 20) "wat"
    (by norm_num) (by norm_num) (by simp) (by simp) (by simp)
    (by simp) (by simp) (by simp) (by with_unfolding_all decide)

section NegationLemmas

theorem pyabs_neg (q : ℚ) : pyabs (-q) = pyabs q := by
  unfold pyabs
  rcases lt_trichotomy q 0 with h | h | h
  · rw [if_neg (by linarith), if_pos h]
  · subst h
    norm_num
  · rw [if_pos (by linarith), if_neg (by linarith)]
    exact neg_neg q

theorem insertionSort_neg (l : List ℚ) :
    List.insertionSort (· ≤ ·) (l.map fun v => -v) =
    ((List.insertionSort (· ≤ ·) l).map fun v => -v).reverse := by
  have hperm : (List.insertionSort (· ≤ ·) (l.map fun v => -v)).Perm
      ((List.insertionSort (· ≤ ·) l).map fun v => -v).reverse := by
    refine (List.perm_insertionSort _ _).trans ?_
    refine (((List.perm_insertionSort (· ≤ ·) l).map _).symm).trans ?_
    exact (List.reverse_perm _).symm
  have hsorted : List.Sorted (· ≤ ·)
      (((List.insertionSort (· ≤ ·) l).map fun v => -v).reverse) := by
    rw [List.Sorted, List.pairwise_reverse]
    exact (List.sorted_insertionSort (· ≤ ·) l).map _
      (fun a b hab => neg_le_neg hab)
  exact List.eq_of_perm_of_sorted hperm (List.sorted_insertionSort _ _) hsorted

theorem getD_reverse_map_neg {s : List ℚ} {j : ℕ} (h : j < s.length) :
    ((s.map fun v => -v).reverse).getD j 0 = - s.getD (s.length - 1 - j) 0 := by
  have h1 : j < ((s.map fun v => -v).reverse).length := by
    simpa using h
  have h2 : s.length - 1 - j < s.length := by omega
  rw [List.getD_eq_getElem?_getD, List.getElem?_eq_getElem h1,
    List.getElem_reverse, List.getElem_map,
    List.getD_eq_getElem?_getD, List.getElem?_eq_getElem (by simpa using h2)]
  simp

theorem median_neg (l : List ℚ) :
    median (l.map fun v => -v) = - median l := by
  unfold median
  rw [insertionSort_neg, List.length_map]
  by_cases h0 : l.length = 0
  · rw [if_pos h0, if_pos h0]
    norm_num
  · rw [if_neg h0, if_neg h0]
    have hsl : (List.insertionSort (· ≤ ·) l).length = l.length :=
      (List.perm_insertionSort _ l).length_eq
    by_cases hpar : l.length % 2 = 1
    · rw [if_pos hpar, if_pos hpar]
      rw [getD_reverse_map_neg (by omega)]
      have hidx : (List.insertionSort (· ≤ ·) l).length - 1 - l.length / 2 =
          l.length / 2 := by omega
      rw [hidx]
    · rw [if_neg hpar, if_neg hpar]
      rw [getD_reverse_map_neg (by omega), getD_reverse_map_neg (by omega)]
      have hidx1 : (List.insertionSort (· ≤ ·) l).length - 1 -
          (l.length / 2 - 1) = l.length / 2 := by omega
      have hidx2 : (List.insertionSort (· ≤ ·) l).length - 1 - l.length / 2 =
          l.length / 2 - 1 := by omega
      rw [hidx1, hidx2]
      ring

theorem getD_map_neg (l : List ℚ) (i : ℕ) :
    (l.map fun v => -v).getD i 0 = -(l.getD i 0) := by
  rw [List.getD_eq_getElem?_getD, List.getD_eq_getElem?_getD,
    List.getElem?_map]
  cases l[i]? with
  | none => simp
  | some a => simp

end NegationLemmas

section SwapLemmas

theorem esdGo_swap (O : Oracles) (n : ℕ) (al : ℚ) (d1 d2 : String)
    (g1 g2 : ℚ → ℚ → ℚ → ℚ)
    (hs1 : scoreFn d1 = some g1) (hs2 : scoreFn d2 = some g2)
    (hb1 : d1 ≠ "both") (hb2 : d2 ≠ "both")
    (hg : ∀ v med mad, g1 (-v) (-med) mad = g2 v med mad) :
    ∀ (fuel i : ℕ) (ws : List (ℕ × ℚ)) (acc : List ℕ),
      esdGo O n al d1 fuel i (ws.map fun p => (p.1, -p.2)) acc =
      esdGo O n al d2 fuel i ws acc := by
  have hpv : esdPValue d1 al = esdPValue d2 al := by
    funext q
    unfold esdPValue
    rw [if_neg hb1, if_neg hb2]
  intro fuel
  induction fuel with
  | zero => intro i ws acc; rfl
  | succ f ih =>
    intro i ws acc
    have hvals : ((ws.map fun p => (p.1, -p.2)).map Prod.snd) =
        ((ws.map Prod.snd).map fun v => -v) := by
      rw [List.map_map, List.map_map]
      rfl
    have hmedn : median ((ws.map Prod.snd).map fun v => -v) =
        - median (ws.map Prod.snd) := median_neg _
    have hdev : (((ws.map Prod.snd).map fun v => -v).map fun value =>
        pyabs (value - - median (ws.map Prod.snd))) =
        ((ws.map Prod.snd).map fun value =>
          pyabs (value - median (ws.map Prod.snd))) := by
      rw [List.map_map]
      apply List.map_congr_left
      intro a _
      show pyabs (-a - - median (ws.map Prod.snd)) =
        pyabs (a - median (ws.map Prod.snd))
      rw [show -a - - median (ws.map Prod.snd) =
        -(a - median (ws.map Prod.snd)) from by ring, pyabs_neg]
    simp only [esdGo]
    rw [hvals, hmedn, hdev]
    by_cases hz : median ((ws.map Prod.snd).map fun value =>
        pyabs (value - median (ws.map Prod.snd))) * MAD_CONSTANT = 0
    · rw [if_pos hz, if_pos hz]
    · rw [if_neg hz, if_neg hz]
      simp only [hs1, hs2]
      have hsc : ((ws.map fun p => (p.1, -p.2)).map fun p =>
          (p.1, g1 p.2 (- median (ws.map Prod.snd))
            (median ((ws.map Prod.snd).map fun value =>
              pyabs (value - median (ws.map Prod.snd))) * MAD_CONSTANT))) =
          (ws.map fun p =>
            (p.1, g2 p.2 (median (ws.map Prod.snd))
              (median ((ws.map Prod.snd).map fun value =>
                pyabs (value - median (ws.map Prod.snd))) * MAD_CONSTANT))) := by
        rw [List.map_map]
        apply List.map_congr_left
        intro p _
        show (p.1, g1 (-p.2) (- median (ws.map Prod.snd)) _) =
          (p.1, g2 p.2 (median (ws.map Prod.snd)) _)
        rw [hg]
      rw [hsc, hpv]
      cases hidx : idxmax (ws.map fun p =>
          (p.1, g2 p.2 (median (ws.map Prod.snd))
            (median ((ws.map Prod.snd).map fun value =>
              pyabs (value - median (ws.map Prod.snd))) * MAD_CONSTANT))) with
      | none => rfl
      | some pr =>
        obtain ⟨ridx, r⟩ := pr
        simp only []
        by_cases hrl : r > ((n : ℚ) - i) *
            O.tppf (esdPValue d2 al ((n : ℚ) - i + 1)) ((n : ℤ) - i - 1) /
            O.sqrt (((n : ℚ) - i - 1 +
              O.tppf (esdPValue d2 al ((n : ℚ) - i + 1)) ((n : ℤ) - i - 1) ^ 2) *
              ((n : ℚ) - i + 1))
        · rw [if_pos hrl, if_pos hrl]
          have hfm : (ws.map fun p => (p.1, -p.2)).filter
              (fun q => q.1 ≠ ridx) =
              (ws.filter fun q => q.1 ≠ ridx).map fun p => (p.1, -p.2) := by
            rw [List.filter_map]
            rfl
          rw [hfm]
          exact ih _ _ _
        · rw [if_neg hrl, if_neg hrl]

theorem esd_swap (O : Oracles) (al : ℚ) (d1 d2 : String)
    (g1 g2 : ℚ → ℚ → ℚ → ℚ)
    (hs1 : scoreFn d1 = some g1) (hs2 : scoreFn d2 = some g2)
    (hb1 : d1 ≠ "both") (hb2 : d2 ≠ "both")
    (hg : ∀ v med mad, g1 (-v) (-med) mad = g2 v med mad)
    (r : List ℚ) (mo : ℕ) :
    esd O (r.map fun v => -v) mo al d1 = esd O r mo al d2 := by
  unfold esd
  rw [List.length_map]
  have henum : (r.map fun v => -v).enum = r.enum.map fun p => (p.1, -p.2) := by
    rw [List.enum_map]
    rfl
  rw [henum]
  exact esdGo_swap O r.length al d1 d2 g1 g2 hs1 hs2 hb1 hb2 hg mo 1 r.enum []

theorem window_swap (O : Oracles) (period : ℕ) (ma al : ℚ) (d1 d2 : String)
    (g1 g2 : ℚ → ℚ → ℚ → ℚ)
    (hs1 : scoreFn d1 = some g1) (hs2 : scoreFn d2 = some g2)
    (hb1 : d1 ≠ "both") (hb2 : d2 ≠ "both")
    (hg : ∀ v med mad, g1 (-v) (-med) mad = g2 v med mad)
    (wx : List ℚ) (wstart : ℤ)
    (hstl : (O.stl (wx.map fun v => -v) period).1 =
      ((O.stl wx period).1.map fun v => -v)) :
    detect_anomaly_for_one_window O (wx.map fun v => -v) period ma al d1 none
      wstart false =
    detect_anomaly_for_one_window O wx period ma al d2 none wstart false := by
  have hfalse : ¬ ((false : Bool) = true) := by decide
  simp only [detect_anomaly_for_one_window, e_values_step]
  rw [if_neg hfalse, if_neg hfalse, List.length_map, hstl]
  have htr : get_trends_by_median (wx.map fun v => -v) =
      (get_trends_by_median wx).map fun v => -v := by
    unfold get_trends_by_median
    rw [List.length_map, median_neg, List.map_replicate]
  rw [htr]
  have hres : (List.range wx.length).map (fun i =>
      (wx.map fun v => -v).getD i 0 -
        ((O.stl wx period).1.map fun v => -v).getD i 0 -
        ((get_trends_by_median wx).map fun v => -v).getD i 0) =
      ((List.range wx.length).map fun i =>
        wx.getD i 0 - (O.stl wx period).1.getD i 0 -
          (get_trends_by_median wx).getD i 0).map fun v => -v := by
    rw [List.map_map]
    apply List.map_congr_left
    intro i _
    show (wx.map fun v => -v).getD i 0 -
        ((O.stl wx period).1.map fun v => -v).getD i 0 -
        ((get_trends_by_median wx).map fun v => -v).getD i 0 =
      -(wx.getD i 0 - (O.stl wx period).1.getD i 0 -
        (get_trends_by_median wx).getD i 0)
    rw [getD_map_neg, getD_map_neg, getD_map_neg]
    ring
  rw [hres, esd_swap O al d1 d2 g1 g2 hs1 hs2 hb1 hb2 hg]

theorem window_none_preserved (O : Oracles) (wx : List ℚ) (period : ℕ)
    (ma al : ℚ) (dir : String) (wstart : ℤ) (s : List ℤ)
    (e' : Option (List (Option ℚ)))
    (h : detect_anomaly_for_one_window O wx period ma al dir none wstart
      false = .ok (s, e')) : e' = none := by
  simp only [detect_anomaly_for_one_window, e_values_step] at h
  split at h
  · cases h
  · exact (congrArg Prod.snd (Except.ok.inj h)).symm

theorem processWindow_preserves_none (O : Oracles) (xq : List ℚ)
    (n period : ℕ) (ma al : ℚ) (dir : String) (ltp : ℕ)
    (st : List ℤ × Option (List (Option ℚ))) (a : ℕ)
    (st' : List ℤ × Option (List (Option ℚ))) (hst : st.2 = none)
    (h : processWindow O xq n period ma al dir ltp none false st a = .ok st') :
    st'.2 = none := by
  simp only [processWindow] at h
  split at h
  · cases h
  · split at h
    · cases h
    · rename_i wret ev' heqw
      rw [hst] at heqw
      have h2 : ev' = none :=
        window_none_preserved O _ period ma al dir _ wret ev' heqw
      obtain rfl := (Except.ok.inj h).symm
      exact h2

theorem bind_congr_ok {α β : Type} (r : Except String α)
    (f g : α → Except String β)
    (h : ∀ a, r = .ok a → f a = g a) : r >>= f = r >>= g := by
  cases r with
  | error e => rfl
  | ok a => exact h a rfl

theorem processWindow_swap (O : Oracles) (xq : List ℚ) (n period : ℕ)
    (ma al : ℚ) (d1 d2 : String) (g1 g2 : ℚ → ℚ → ℚ → ℚ)
    (hs1 : scoreFn d1 = some g1) (hs2 : scoreFn d2 = some g2)
    (hb1 : d1 ≠ "both") (hb2 : d2 ≠ "both")
    (hg : ∀ v med mad, g1 (-v) (-med) mad = g2 v med mad)
    (ltp : ℕ) (st : List ℤ × Option (List (Option ℚ))) (ws : ℕ)
    (hst : st.2 = none)
    (hstl : ∀ w : List ℚ, (O.stl (w.map fun v => -v) period).1 =
      ((O.stl w period).1.map fun v => -v)) :
    processWindow O (xq.map fun v => -v) n period ma al d1 ltp none false st
      ws =
    processWindow O xq n period ma al d2 ltp none false st ws := by
  simp only [processWindow]
  rw [pySlice_map, List.length_map]
  by_cases hlen : (pySlice xq (windowBounds n ltp ws).1
      ((windowBounds n ltp ws).2 : ℤ)).length < period * 2
  · rw [if_pos hlen, if_pos hlen]
  · rw [if_neg hlen, hst,
      window_swap O period ma al d1 d2 g1 g2 hs1 hs2 hb1 hb2 hg _ _
        (hstl _), if_neg hlen]

theorem foldlM_swap {σ α : Type} (P : σ → Prop)
    (f1 f2 : σ → α → Except String σ)
    (hswap : ∀ st a, P st → f1 st a = f2 st a)
    (hpres : ∀ st a st', P st → f2 st a = .ok st' → P st') :
    ∀ (l : List α) (st : σ), P st →
      l.foldlM f1 st = l.foldlM f2 st := by
  intro l
  induction l with
  | nil => intro st _; rfl
  | cons a t ih =>
    intro st hst
    rw [List.foldlM_cons, List.foldlM_cons, hswap st a hst]
    exact bind_congr_ok _ _ _ fun st' hres =>
      ih st' (hpres st a st' hst hres)

theorem isnan_map_neg (x : List PyFloat) :
    (x.map fun v => v.map fun q => -q).any isnan = x.any isnan := by
  induction x with
  | nil => rfl
  | cons a t ih =>
    have ha : isnan (a.map fun q => -q) = isnan a := by cases a <;> rfl
    simp only [List.map_cons, List.any_cons, ha, ih]

theorem getD_zero_map_neg (x : List PyFloat) :
    (x.map fun v => v.map fun q => -q).map (fun v => v.getD 0) =
    (x.map fun v => v.getD 0).map fun v => -v := by
  induction x with
  | nil => rfl
  | cons a t ih =>
    have ha : ((a.map fun q => -q).getD 0 : ℚ) = -(a.getD 0) := by
      cases a
      · show (0 : ℚ) = -0
        rw [neg_zero]
      · rfl
    simp only [List.map_cons, ha, ih]

set_option maxHeartbeats 2000000 in
theorem detect_swap (O : Oracles) (x : List PyFloat) (period : ℕ)
    (ma al : ℚ) (L : Option ℕ) (ol : Option ℤ) (d1 d2 : String)
    (g1 g2 : ℚ → ℚ → ℚ → ℚ)
    (hs1 : scoreFn d1 = some g1) (hs2 : scoreFn d2 = some g2)
    (hb1 : d1 ≠ "both") (hb2 : d2 ≠ "both")
    (hg : ∀ v med mad, g1 (-v) (-med) mad = g2 v med mad)
    (hstl : ∀ w : List ℚ, (O.stl (w.map fun v => -v) period).1 =
      ((O.stl w period).1.map fun v => -v)) :
    detect_anoms O (x.map fun v => v.map fun q => -q) period ma al d1 L ol
      none false false =
    detect_anoms O x period ma al d2 L ol none false false := by
  simp only [detect_anoms]
  rw [List.length_map, isnan_map_neg, getD_zero_map_neg]
  by_cases h1 : ma > 49 / 100 ∨ ma ≤ 0
  · rw [if_pos h1, if_pos h1]
  · rw [if_neg h1, if_neg h1]
    by_cases h2 : al ≤ 0
    · rw [if_pos h2, if_pos h2]
    · rw [if_neg h2, if_neg h2]
      by_cases h3 : x.any isnan = true
      · rw [if_pos h3, if_pos h3]
      · rw [if_neg h3, if_neg h3]
        by_cases h4 : L.getD x.length = 0
        · rw [if_pos h4, if_pos h4]
        · rw [if_neg h4, if_neg h4]
          have hfold := foldlM_swap (fun st => st.2 = none)
            (processWindow O ((x.map fun v => v.getD 0).map fun v => -v)
              x.length period ma al d1 (L.getD x.length) none false)
            (processWindow O (x.map fun v => v.getD 0) x.length period ma al
              d2 (L.getD x.length) none false)
            (fun st a hst => processWindow_swap O (x.map fun v => v.getD 0)
              x.length period ma al d1 d2 g1 g2 hs1 hs2 hb1 hb2 hg
              (L.getD x.length) st a hst hstl)
            (fun st a st' hst hres => processWindow_preserves_none O
              (x.map fun v => v.getD 0) x.length period ma al d2
              (L.getD x.length) st a st' hst hres)
            (pyRange x.length (L.getD x.length))
            ([], if (false : Bool) = true then
              some (List.replicate x.length (none : Option ℚ)) else none)
            rfl
          conv_lhs => rw [hfold]

end SwapLemmas

/-- Claim C9 (counterexample): with a threshold filter set, direction
symmetry fails.  On `x = [-100, 5, 4, 3, 2, 1]` with `period = 3` and
`threshold = med_max`, `direction = neg` reports no anomaly, while the
elementwise-negated series with `direction = pos` reports index 0: the
threshold filter compares raw values of the run it is in, and negation
flips which values clear the med-max threshold. -/
theorem direction_symmetry_fails_with_threshold :
    ((([(-100 : ℚ), 5, 4, 3, 2, 1].map some).map fun v => v.map fun q => -q) =
      ([(100 : ℚ), -5, -4, -3, -2, -1].map some)) ∧
    detect_anoms
      ⟨fun x _ => (List.replicate x.length 0, List.replicate x.length 0),
       fun _ => [], fun _ _ => 39 / 10, fun _ => 1074 / 100⟩
      ([(-100 : ℚ), 5, 4, 3, 2, 1].map some) 3 (1 / 10) (1 / 20) "neg" none
      none (some "med_max") false false = .ok ([], none) ∧
    detect_anoms
      ⟨fun x _ => (List.replicate x.length 0, List.replicate x.length 0),
       fun _ => [], fun _ _ => 39 / 10, fun _ => 1074 / 100⟩
      (([(-100 : ℚ), 5, 4, 3, 2, 1].map some).map fun v => v.map fun q => -q)
      3 (1 / 10) (1 / 20) "pos" none none (some "med_max") false false =
      .ok ([0], none) :=
  ⟨by with_unfolding_all decide, by with_unfolding_all decide,
   by with_unfolding_all decide⟩

/-- Claim C9 (amended): with no threshold filter (the counterexample
shows a threshold breaks the symmetry), no expected values and median
trends, and an STL oracle whose seasonal component is odd under
negation of the window, negating every value of the series and swapping
`direction` between pos and neg leaves the result unchanged, in both
swap directions, for every series and all remaining parameters. -/
theorem detect_direction_symmetry (O : Oracles) (x : List PyFloat)
    (period : ℕ) (ma al : ℚ) (L : Option ℕ) (ol : Option ℤ)
    (hstl : ∀ w : List ℚ, (O.stl (w.map fun v => -v) period).1 =
      ((O.stl w period).1.map fun v => -v)) :
    detect_anoms O (x.map fun v => v.map fun q => -q) period ma al "pos" L ol
      none false false =
    detect_anoms O x period ma al "neg" L ol none false false ∧
    detect_anoms O (x.map fun v => v.map fun q => -q) period ma al "neg" L ol
      none false false =
    detect_anoms O x period ma al "pos" L ol none false false :=
  ⟨detect_swap O x period ma al L ol "pos" "neg"
      (fun value med mad => (value - med) / mad)
      (fun value med mad => (med - value) / mad)
      (by simp [scoreFn]) (by simp [scoreFn]) (by decide) (by decide)
      (fun v med mad => by ring) hstl,
   detect_swap O x period ma al L ol "neg" "pos"
      (fun value med mad => (med - value) / mad)
      (fun value med mad => (value - med) / mad)
      (by simp [scoreFn]) (by simp [scoreFn]) (by decide) (by decide)
      (fun v med mad => by ring) hstl⟩

/-- Claim C9 witness: the zero-STL oracle is odd under negation, and on
the concrete series `[1, 2, 9]` with `period = 1` both swap directions
hold; the neg run on the original series flags index 0. -/
theorem detect_direction_symmetry_witness :
    (detect_anoms
        ⟨fun x _ => (List.replicate x.length 0, List.replicate x.length 0),
         fun _ => [], fun _ _ => 1, fun _ => 10⟩
        (([(1 : ℚ), 2, 9].map some).map fun v => v.map fun q => -q) 1 (1 / 10)
        (1 / 20) "pos" none none none false false =
      detect_anoms
        ⟨fun x _ => (List.replicate x.length 0, List.replicate x.length 0),
         fun _ => [], fun _ _ => 1, fun _ => 10⟩
        ([(1 : ℚ), 2, 9].map some) 1 (1 / 10) (1 / 20) "neg" none none none
        false false) ∧
    detect_anoms
      ⟨fun x _ => (List.replicate x.length 0, List.replicate x.length 0),
       fun _ => [], fun _ _ => 1, fun _ => 10⟩
      ([(1 : ℚ), 2, 9].map some) 1 (1 / 10) (1 / 20) "neg" none none none
      false false = .ok ([0], none) :=
  ⟨(detect_direction_symmetry
      ⟨fun x _ => (List.replicate x.length 0, List.replicate x.length 0),
       fun _ => [], fun _ _ => 1, fun _ => 10⟩
      ([(1 : ℚ), 2, 9].map some) 1 (1 / 10) (1 / 20) none none
      (fun w => by
        show List.replicate (w.map fun v => -v).length (0 : ℚ) =
          (List.replicate w.length (0 : ℚ)).map fun v => -v
        rw [List.length_map, List.map_replicate, neg_zero])).1,
   by with_unfolding_all decide⟩

end AnomsPy
